import Mathlib

/-!
Verification development for the payroll-deduction comparator repository
(`conectaconsigadm-commits/comparador`).

The definitions below are a shallow embedding of the TypeScript sources:

* `src/core/reconcile/Reconciler.ts` (reconciliation engine),
* `src/core/prefeitura/extractFromCsvReport.ts` (delimited-text extractor),
* `src/core/prefeitura/connectors/text/parseTextReport.ts` (free-text extractor),
* `src/core/prefeitura/connectors/sheet/parseSheetValue.ts` and
  `detectSheetColumns.ts` (spreadsheet column inference),
* `src/core/prefeitura/PrefeituraExtractor.ts` (ingestion router).

Monetary amounts (`Money`, a JS `number` in the source) are modelled as `ℚ`;
every amount that enters the pipeline is a two-decimal fixed-point value
produced by the locale parser, and the reconciler rounds all compared
differences to two decimal places, so exact rational arithmetic is the
faithful reading of the arithmetic the source performs.

JS `Array.prototype.sort` (guaranteed stable since ES2019) is modelled by a
stable insertion sort `sortBy` over the comparator's ordering.
-/

namespace Comparador

/-- Severity levels of a `DiagnosticsItem` (src/core/domain/types). -/
inductive Severity
  | info | warn | error
deriving DecidableEq, Repr

/-- Extraction quality tag (`'completa' | 'parcial' | 'falhou'`). -/
inductive Extracao
  | completa | parcial | falhou
deriving DecidableEq, Repr

/-- Status of a reconciliation item. -/
inductive Status
  | bateu | so_no_banco | so_na_prefeitura | divergente | diagnostico
deriving DecidableEq, Repr

/-- Confidence tag attached to an extracted row's metadata. -/
inductive Confidence
  | high | medium | low
deriving DecidableEq, Repr

/-- Which side a normalized row came from. -/
inductive RowSource
  | banco | prefeitura
deriving DecidableEq, Repr

/-- A normalized row (`NormalizedRow` in src/core/domain/types): employee key
(`matricula`), monetary amount (`valor`) and the metadata fields used by the
pipeline.  Fields irrelevant to a given claim keep their defaults. -/
structure NormalizedRow where
  source : RowSource := .prefeitura
  matricula : String
  valor : ℚ
  competencia : Option String := none
  evento : Option String := none
  confidence : Confidence := .high
  rawRef : String := ""
deriving DecidableEq, Repr

/-- Details payload of a diagnostic.  The source attaches free-form
objects; the only payload a claim depends on is the unsupported-format
record of the ingestion router, so the other diagnostics keep `none`. -/
inductive DiagDetails
  | none
  | unsupportedFormat (fileName : String) (extension : String)
      (supportedFormats : List String)
deriving DecidableEq, Repr

/-- One structured diagnostics entry. -/
structure DiagnosticsItem where
  severity : Severity
  code : String
  message : String := ""
  details : DiagDetails := .none
deriving DecidableEq, Repr

/-- One reconciliation item.  The source stores the signed difference of a
divergent pair inside a human-readable `obs` string
(`Diferença: R$ ±d.toFixed(2)`); we retain the signed difference itself. -/
structure ReconciliationItem where
  matricula : String
  valorBanco : Option ℚ := none
  valorPrefeitura : Option ℚ := none
  status : Status
  obs : Option ℚ := none
deriving DecidableEq, Repr

/-- The per-status counters of the reconciliation summary. -/
structure StatusCounts where
  bateu : ℕ
  so_no_banco : ℕ
  so_na_prefeitura : ℕ
  divergente : ℕ
  diagnostico : ℕ
deriving DecidableEq, Repr

/-- The reconciliation summary. -/
structure ReconciliationSummary where
  competencia : Option String
  extracao : Extracao
  counts : StatusCounts
  taxaMatch : ℚ
deriving DecidableEq, Repr

/-- The full reconciliation result. -/
structure ReconciliationResult where
  summary : ReconciliationSummary
  items : List ReconciliationItem
  diagnostics : List DiagnosticsItem
deriving DecidableEq, Repr

/-! ### Stable sort (JS `Array.prototype.sort`) -/

/-- Insert `x` into `l` after every element `y` with `le y x`; the building
block of the stable insertion sort modelling JS stable `sort`. -/
def insertLe {α : Type} (le : α → α → Bool) (x : α) : List α → List α
  | [] => [x]
  | y :: ys => if le y x then y :: insertLe le x ys else x :: y :: ys

/-- Stable sort by a boolean comparator: later elements are inserted after
equal earlier ones, matching JS stable-sort tie behaviour. -/
def sortBy {α : Type} (le : α → α → Bool) (l : List α) : List α :=
  l.foldl (fun acc x => insertLe le x acc) []

/-- `Math.round(x * 100) / 100`: round to two decimal places.  Mathlib's
`round` is `⌊x + 1/2⌋`, which agrees with JS `Math.round` (half away from
zero towards `+∞`) on all inputs. -/
def round2 (x : ℚ) : ℚ := (round (x * 100) : ℚ) / 100

/-- The tolerance comparison of the matching phase (Reconciler.ts line 67–71):
the absolute difference, rounded to two decimals, is at most `TOLERANCE`
(`0.01`). -/
def matchPred (valorBanco v : ℚ) : Bool :=
  decide (round2 |v - valorBanco| ≤ 1 / 100)

/-- `prefPendente.findIndex(...)` followed by `splice(matchIndex, 1)`: find
the first element satisfying the tolerance comparison and remove it,
returning the matched value and the remaining list. -/
def findMatch (valorBanco : ℚ) : List ℚ → Option (ℚ × List ℚ)
  | [] => none
  | p :: ps =>
    if matchPred valorBanco p then some (p, ps)
    else
      match findMatch valorBanco ps with
      | none => none
      | some (v, rest) => some (v, p :: rest)

/-- Phase 1 of `reconcile` (lines 62–88): walk the bank amounts from the last
index towards the first (the structural recursion processes the tail — the
later indices — before the head, exactly like the `for (i = len-1; i >= 0;
i--)` loop with `splice(i, 1)`), consuming the first tolerably-equal
authority amount on each hit.  Returns the matched `(bank, authority)` pairs
in emission order together with both residual lists in original order. -/
def phase1 : List ℚ → List ℚ → List (ℚ × ℚ) × List ℚ × List ℚ
  | [], pref => ([], [], pref)
  | b :: bs, pref =>
    let r := phase1 bs pref
    match findMatch b r.2.2 with
    | some (v, restPref) => (r.1 ++ [(b, v)], r.2.1, restPref)
    | none => (r.1, b :: r.2.1, r.2.2)

/-- Ascending numeric sort (`arr.sort((a, b) => a - b)`). -/
def sortAsc (l : List ℚ) : List ℚ := sortBy (fun a b => decide (a ≤ b)) l

/-- Item constructors for the four emitted statuses. -/
def mkBateu (matricula : String) (bp : ℚ × ℚ) : ReconciliationItem :=
  { matricula := matricula, valorBanco := some bp.1, valorPrefeitura := some bp.2,
    status := .bateu }

def mkDivergente (matricula : String) (bp : ℚ × ℚ) : ReconciliationItem :=
  { matricula := matricula, valorBanco := some bp.1, valorPrefeitura := some bp.2,
    status := .divergente, obs := some (bp.1 - bp.2) }

def mkSoNoBanco (matricula : String) (v : ℚ) : ReconciliationItem :=
  { matricula := matricula, valorBanco := some v, status := .so_no_banco }

def mkSoNaPrefeitura (matricula : String) (v : ℚ) : ReconciliationItem :=
  { matricula := matricula, valorPrefeitura := some v, status := .so_na_prefeitura }

/-- Phases 1–4 of `reconcile` for a single employee key: tolerance matching,
then — when both residual lists are non-empty — ascending sort of both
residual sides and positional pairing into `divergente` items
(lines 91–117), then the final `so_no_banco` / `so_na_prefeitura` leftovers
(lines 119–137).  Items are listed in push order. -/
def reconcileKey (matricula : String) (bVals pVals : List ℚ) :
    List ReconciliationItem :=
  let r := phase1 bVals pVals
  let matched := r.1.map (mkBateu matricula)
  if r.2.1 ≠ [] ∧ r.2.2 ≠ [] then
    let bs := sortAsc r.2.1
    let ps := sortAsc r.2.2
    let n := min bs.length ps.length
    matched ++ (bs.zip ps).map (mkDivergente matricula)
      ++ (bs.drop n).map (mkSoNoBanco matricula)
      ++ (ps.drop n).map (mkSoNaPrefeitura matricula)
  else
    matched ++ r.2.1.map (mkSoNoBanco matricula)
      ++ r.2.2.map (mkSoNaPrefeitura matricula)

/-- First-occurrence deduplication with an accumulator of already-seen keys:
models `new Set([...])`, which preserves insertion order. -/
def dedupFirstAux (seen : List String) : List String → List String
  | [] => []
  | x :: xs =>
    if x ∈ seen then dedupFirstAux seen xs
    else x :: dedupFirstAux (x :: seen) xs

/-- Insertion-ordered set of all employee keys. -/
def dedupFirst (l : List String) : List String := dedupFirstAux [] l

/-- `groupByMatricula` read off for one key: the amounts of the rows carrying
this key, in row order (the `Map` of the source appends in iteration
order). -/
def valuesOf (rows : List NormalizedRow) (matricula : String) : List ℚ :=
  (rows.filter (fun r => decide (r.matricula = matricula))).map (·.valor)

/-- Count of items with a given status; the source increments a counter at
each push, which is the same number. -/
def countStatus (s : Status) (items : List ReconciliationItem) : ℕ :=
  items.countP (fun it => decide (it.status = s))

/-- `detectCompetencia`: the most frequent `meta.competencia` value, ties
broken by first-seen order (`Object.entries` iterates string keys in
insertion order, and only a strictly greater count replaces the current
best). -/
def detectCompetencia (rows : List NormalizedRow) : Option String :=
  let comps := rows.filterMap (·.competencia)
  ((dedupFirst comps).foldl
    (fun best c =>
      let n := comps.count c
      match best with
      | none => if 0 < n then some (c, n) else none
      | some (b, m) => if m < n then some (c, n) else some (b, m))
    none).map Prod.fst

/-- `detectExtracaoQualidade` (lines 234–250): `falhou` when the authority
row set is empty, else `parcial` when some diagnostic has error severity,
else `completa`. -/
def detectExtracaoQualidade (prefRows : List NormalizedRow)
    (diagnostics : List DiagnosticsItem) : Extracao :=
  if prefRows.length = 0 then .falhou
  else if diagnostics.any (fun d => decide (d.severity = .error)) then .parcial
  else .completa

/-- Numeric prefix of an employee key (`Number(matricula.split('-')[0])`),
for the final item sort; well-formed keys match `\d{1,6}-\d{1,3}` so the
prefix is a plain natural number. -/
def matriculaBase (matricula : String) : ℕ :=
  (((matricula.splitOn "-").headD "").toNat?).getD 0

/-- Rank of a status under `status.localeCompare`: the five status strings
`bateu`, `diagnostico`, `divergente`, `so_na_prefeitura`, `so_no_banco`
compare alphabetically in this order. -/
def statusRank : Status → ℕ
  | .bateu => 0
  | .diagnostico => 1
  | .divergente => 2
  | .so_na_prefeitura => 3
  | .so_no_banco => 4

/-- The final item comparator (lines 141–146): numeric key prefix first, then
status name. -/
def itemLe (a b : ReconciliationItem) : Bool :=
  decide (matriculaBase a.matricula < matriculaBase b.matricula
    ∨ (matriculaBase a.matricula = matriculaBase b.matricula
       ∧ statusRank a.status ≤ statusRank b.status))

/-- `Reconciler.reconcile` (lines 29–189). -/
def reconcile (bankRows prefRows : List NormalizedRow) : ReconciliationResult :=
  let todasMatriculas :=
    dedupFirst (bankRows.map (·.matricula) ++ prefRows.map (·.matricula))
  let items := todasMatriculas.flatMap
    (fun m => reconcileKey m (valuesOf bankRows m) (valuesOf prefRows m))
  let bateuCount := countStatus .bateu items
  let soNoBancoCount := countStatus .so_no_banco items
  let soNaPrefeituraCount := countStatus .so_na_prefeitura items
  let divergenteCount := countStatus .divergente items
  let sortedItems := sortBy itemLe items
  let competencia := detectCompetencia (bankRows ++ prefRows)
  let extracao := detectExtracaoQualidade prefRows []
  let totalItems := bateuCount + divergenteCount + soNoBancoCount + soNaPrefeituraCount
  let taxaMatch :=
    round2 (if 0 < totalItems then (bateuCount : ℚ) / (totalItems : ℚ) * 100 else 0)
  { summary :=
      { competencia := competencia
        extracao := extracao
        counts :=
          { bateu := bateuCount
            so_no_banco := soNoBancoCount
            so_na_prefeitura := soNaPrefeituraCount
            divergente := divergenteCount
            diagnostico := 0 }
        taxaMatch := taxaMatch }
    items := sortedItems
    diagnostics :=
      [{ severity := .info, code := "reconcile_summary" }] }

/-! ### Conservation of rows through `reconcile` (claim C1) -/

/-- JS `\w`: ASCII letter, digit or underscore. -/
def isWordChar (c : Char) : Bool := c.isAlphanum || c == '_'

/-- JS `\s` (the ASCII range; the extractor inputs contain no exotic Unicode
spaces). -/
def isJsSpace (c : Char) : Bool :=
  c == ' ' || c == '\t' || c == '\n' || c == '\r' || c == '\x0b' || c == '\x0c'

/-- Whether the next character continues a word (`\b` fails before it after
a word character, and after digits). -/
def wordAt : List Char → Bool
  | [] => false
  | c :: _ => isWordChar c

/-- `String.prototype.trim` on the character list. -/
def trimChars (cs : List Char) : List Char :=
  (((cs.dropWhile isJsSpace).reverse).dropWhile isJsSpace).reverse

/-- Decimal digits to a natural number (`parseInt(_, 10)` on a digit-only
capture). -/
def digitsToNat (ds : List Char) : ℕ :=
  ds.foldl (fun n c => 10 * n + (c.toNat - '0'.toNat)) 0

/-- `padStart(3, '0')`. -/
def pad3 (s : String) : String :=
  String.mk (List.replicate (3 - s.length) '0' ++ s.toList)

/-- Case-insensitive literal match (pattern given lowercase); returns the
rest after the literal. -/
def matchCI : List Char → List Char → Option (List Char)
  | [], rest => some rest
  | _ :: _, [] => none
  | pc :: ps, c :: cs => if c.toLower == pc then matchCI ps cs else none

/-- Match `evento:\s*(\d{1,k})` (case-insensitive) anchored at the current
position; the digit capture is greedy.  When fewer than one digit follows
the whitespace, no backtracking of `\s*` can produce a digit, so the
position fails. -/
def eventoAt (maxDigits : ℕ) (cs : List Char) : Option (List Char) :=
  match matchCI ['e', 'v', 'e', 'n', 't', 'o', ':'] cs with
  | none => none
  | some rest =>
    let afterWs := rest.dropWhile isJsSpace
    let ds := (afterWs.takeWhile Char.isDigit).take maxDigits
    if ds.isEmpty then none else some ds

/-- Leftmost match of the `Evento:` pattern on a line (`String.match` with
a non-global regex). -/
def findEvento (maxDigits : ℕ) : List Char → Option (List Char)
  | [] => none
  | c :: cs =>
    match eventoAt maxDigits (c :: cs) with
    | some ds => some ds
    | none => findEvento maxDigits cs

/-- Match `\d{2}/\d{4}\b` at the current position (the leading `\b` is
checked by the scanner).  The counted digit groups are rigid: a digit where
`/` is required cannot be absorbed by backtracking. -/
def compFullAt (cs : List Char) : Option (String × String) :=
  match cs with
  | d1 :: d2 :: s :: rest =>
    if d1.isDigit && d2.isDigit && s == '/' then
      let ys := rest.take 4
      if ys.length = 4 ∧ ys.all Char.isDigit ∧ wordAt (rest.drop 4) = false then
        some (String.mk [d1, d2], String.mk ys)
      else none
    else none
  | _ => none

/-- Leftmost match of `\b(\d{2})/(\d{4})\b` (COMPETENCIA_REGEX_FULL); the
scanner tracks whether the previous character was a word character. -/
def scanCompFull : Bool → List Char → Option (String × String)
  | _, [] => none
  | prevWord, c :: cs =>
    match if prevWord then none else compFullAt (c :: cs) with
    | some r => some r
    | none => scanCompFull (isWordChar c) cs

/-- Match `(0[1-9]|1[0-2])\d{4}\b` at the current position. -/
def compCompactAt (cs : List Char) : Option (String × String) :=
  match cs with
  | a :: b :: rest =>
    if (a == '0' && b.isDigit && b != '0') ||
        (a == '1' && (b == '0' || b == '1' || b == '2')) then
      let ys := rest.take 4
      if ys.length = 4 ∧ ys.all Char.isDigit ∧ wordAt (rest.drop 4) = false then
        some (String.mk [a, b], String.mk ys)
      else none
    else none
  | _ => none

/-- Leftmost match of `\b(0[1-9]|1[0-2])(\d{4})\b` (COMPETENCIA_REGEX_COMPACT). -/
def scanCompCompact : Bool → List Char → Option (String × String)
  | _, [] => none
  | prevWord, c :: cs =>
    match if prevWord then none else compCompactAt (c :: cs) with
    | some r => some r
    | none => scanCompCompact (isWordChar c) cs

/-- Shared competencia detection on one line: slash form first, compact form
second, result rendered `MM/YYYY`. -/
def detectCompetenciaChars (cs : List Char) : Option String :=
  match scanCompFull false cs with
  | some r => some (r.1 ++ "/" ++ r.2)
  | none =>
    match scanCompCompact false cs with
    | some r => some (r.1 ++ "/" ++ r.2)
    | none => none

/-- `\s*[...delims]` after the key: the greedy `\s*` backtracks, so the
class may consume the first delimiter character found inside the leading
whitespace run (relevant when tab is both whitespace and a delimiter) or
immediately after it. -/
def afterWsDelim (delims : List Char) : List Char → Bool
  | [] => false
  | c :: cs =>
    if delims.contains c then true
    else if isJsSpace c then afterWsDelim delims cs
    else false

/-- Match `^\s*(\d{1,6}-\d{1,3})\s*[delims]`.  The counted digit runs are
effectively rigid: any shorter greedy choice leaves a digit where `-` (or
the delimiter class) is required, so the position fails unless the full
digit runs fit the bounds. -/
def matriculaStartAt (delims : List Char) (cs : List Char) : Option String :=
  let afterWs := cs.dropWhile isJsSpace
  let ds := afterWs.takeWhile Char.isDigit
  if 1 ≤ ds.length ∧ ds.length ≤ 6 then
    match afterWs.drop ds.length with
    | '-' :: r2 =>
      let es := r2.takeWhile Char.isDigit
      if 1 ≤ es.length ∧ es.length ≤ 3 ∧ afterWsDelim delims (r2.drop es.length) then
        some (String.mk (ds ++ '-' :: es))
      else none
    | _ => none
  else none

/-- Match `\d{1,6}-\d{1,3}\b` at the current position (the leading `\b` is
checked by the caller). -/
def matriculaHere (cs : List Char) : Option String :=
  let ds := cs.takeWhile Char.isDigit
  if 1 ≤ ds.length ∧ ds.length ≤ 6 then
    match cs.drop ds.length with
    | '-' :: r2 =>
      let es := r2.takeWhile Char.isDigit
      if 1 ≤ es.length ∧ es.length ≤ 3 ∧ wordAt (r2.drop es.length) = false then
        some (String.mk (ds ++ '-' :: es))
      else none
    | _ => none
  else none

/-- Leftmost match of `\b(\d{1,6}-\d{1,3})\b` (MATRICULA_REGEX_ANYWHERE). -/
def matriculaAnywhere : Bool → List Char → Option String
  | _, [] => none
  | prevWord, c :: cs =>
    match if prevWord then none else matriculaHere (c :: cs) with
    | some r => some r
    | none => matriculaAnywhere (isWordChar c) cs

/-- `extractMatricula` of extractFromCsvReport.ts (lines 113–134): static
start-anchored pattern over all four delimiters, then the dynamically built
start pattern over the detected delimiter, then the anywhere fallback. -/
def extractMatricula (delimiter : Char) (line : List Char) : Option String :=
  match matriculaStartAt [',', ';', '\t', '|'] line with
  | some m => some m
  | none =>
    match matriculaStartAt [delimiter] line with
    | some m => some m
    | none => matriculaAnywhere false line

/-- The character class `[\d.,]`. -/
def numClassChar (c : Char) : Bool := c.isDigit || c == '.' || c == ','

/-- Match `"([\d.,]+)"` at the current position: the greedy class run must
be immediately followed by the closing quote (any shorter run ends on a
class character, not a quote), so the match succeeds exactly when the
maximal run is non-empty and quote-terminated. -/
def quotedAt (cs : List Char) : Option (List Char × List Char) :=
  match cs with
  | '"' :: rest =>
    let run := rest.takeWhile numClassChar
    if run.isEmpty then none
    else
      match rest.drop run.length with
      | '"' :: after => some (run, after)
      | _ => none
  | _ => none

/-- Match `R\$\s*([\d.,]+)` (case-insensitive) at the current position. -/
def rsAt (cs : List Char) : Option (List Char × List Char) :=
  match cs with
  | r :: '$' :: rest =>
    if r.toLower == 'r' then
      let afterWs := rest.dropWhile isJsSpace
      let run := afterWs.takeWhile numClassChar
      if run.isEmpty then none else some (run, afterWs.drop run.length)
    else none
  | _ => none

/-- Global scan (`matchAll` / `match` with `g`): try the matcher at each
position left to right, resuming after a match at its end.  Every matcher
consumes at least one character on success, so a fuel of the input length
never runs out. -/
def scanTokens (matchAt : List Char → Option (List Char × List Char)) :
    ℕ → List Char → List (List Char)
  | 0, _ => []
  | _, [] => []
  | fuel + 1, c :: cs =>
    match matchAt (c :: cs) with
    | some (tok, after) => tok :: scanTokens matchAt fuel after
    | none => scanTokens matchAt fuel cs

/-- The tail `,\d{2}\b` of the bare BR money pattern. -/
def bareBase (cs : List Char) : Option (List Char × List Char) :=
  match cs with
  | ',' :: e1 :: e2 :: rest =>
    if e1.isDigit ∧ e2.isDigit ∧ wordAt rest = false then
      some ([',', e1, e2], rest)
    else none
  | _ => none

/-- The tail `(\.\d{3})*,\d{2}\b` with the regex backtracking order: try one
more `\.\d{3}` group greedily; when the continuation fails, fall back to
matching `,\d{2}\b` at the current position (any remaining shorter group
choices start with `.` where `,` is required and fail). -/
def bareGroups : List Char → Option (List Char × List Char)
  | '.' :: d1 :: d2 :: d3 :: rest =>
    if d1.isDigit ∧ d2.isDigit ∧ d3.isDigit then
      match bareGroups rest with
      | some r => some ('.' :: d1 :: d2 :: d3 :: r.1, r.2)
      | none => bareBase ('.' :: d1 :: d2 :: d3 :: rest)
    else bareBase ('.' :: d1 :: d2 :: d3 :: rest)
  | cs => bareBase cs

/-- Match `\d{1,3}(\.\d{3})*,\d{2}\b` at the current position: the leading
digit run must fit in three digits entirely (a leftover digit can be
absorbed by neither the group nor the comma), then the tail follows. -/
def bareAt (cs : List Char) : Option (List Char × List Char) :=
  let ds := cs.takeWhile Char.isDigit
  if 1 ≤ ds.length ∧ ds.length ≤ 3 then
    match bareGroups (cs.drop ds.length) with
    | some r => some (ds ++ r.1, r.2)
    | none => none
  else none

/-- Global scan of `\b(\d{1,3}(?:\.\d{3})*,\d{2})\b` (VALOR_BR_REGEX),
tracking the word-boundary state; after a match the previous character is a
digit, so the state resumes as "inside a word". -/
def scanTokensB : ℕ → Bool → List Char → List (List Char)
  | 0, _, _ => []
  | _, _, [] => []
  | fuel + 1, prevWord, c :: cs =>
    match if prevWord then none else bareAt (c :: cs) with
    | some (tok, after) => tok :: scanTokensB fuel true after
    | none => scanTokensB fuel (isWordChar c) cs

/-! ### Locale numeric parser -/

/-- Quote characters stripped by the locale parser. -/
def isQuoteChar (c : Char) : Bool := c == '"' || c == '\''

/-- Anchored tail `(\.\d{3})*,\d{2}` at end of input, returning the
thousands-group digits and the two decimal digits. -/
def brlTail : List Char → Option (List Char × List Char)
  | [',', e1, e2] =>
    if e1.isDigit ∧ e2.isDigit then some ([], [e1, e2]) else none
  | '.' :: d1 :: d2 :: d3 :: rest =>
    if d1.isDigit ∧ d2.isDigit ∧ d3.isDigit then
      (brlTail rest).map (fun r => (d1 :: d2 :: d3 :: r.1, r.2))
    else none
  | _ => none

/-- Full-string match of `\d{1,3}(\.\d{3})*,\d{2}`, converted by removing
the thousands separators and reading the comma as the decimal point. -/
def brlPattern (cs : List Char) : Option ℚ :=
  let ds := cs.takeWhile Char.isDigit
  if 1 ≤ ds.length ∧ ds.length ≤ 3 then
    match brlTail (cs.drop ds.length) with
    | some r => some ((digitsToNat (ds ++ r.1) : ℚ) + (digitsToNat r.2 : ℚ) / 100)
    | none => none
  else none

/-- Modelled from the spec: the locale numeric parser `parseBRL`
(`src/core/prefeitura/parseBRL.ts` is not present in the source snapshot;
only its tests and callers are).  Per §4.1: trim, strip surrounding quote
characters and a leading `R$` currency marker, accept exactly
`\d{1,3}(\.\d{3})*,\d{2}` (thousands `.`, decimal `,`); empty or
non-matching input is not a number. -/
def parseBRLChars (cs0 : List Char) : Option ℚ :=
  let cs1 := trimChars cs0
  let cs2 := (((cs1.dropWhile isQuoteChar).reverse).dropWhile isQuoteChar).reverse
  let cs3 :=
    match cs2 with
    | r :: '$' :: rest => if r.toLower == 'r' then rest.dropWhile isJsSpace else cs2
    | _ => cs2
  brlPattern cs3

/-- Modelled from the spec: string-level wrapper of the locale parser. -/
def parseBRL (s : String) : Option ℚ := parseBRLChars s.toList

/-! ### Value choice (claim C4) -/

/-- `chooseValue` of extractFromCsvReport.ts (lines 93–107): last non-zero
value; `0` when every candidate is zero; `null` only without candidates. -/
def chooseValueCsv : List ℚ → Option ℚ
  | [] => none
  | [v] => some v
  | v1 :: v2 :: rest =>
    let nonZero := (v1 :: v2 :: rest).filter (fun v => decide (0 < v))
    if h : nonZero = [] then some 0
    else some (nonZero.getLast h)

/-- `chooseValue` of parseTextReport.ts (lines 367–381): identical except
that the all-zero case returns the last candidate. -/
def chooseValueText : List ℚ → Option ℚ
  | [] => none
  | [v] => some v
  | v1 :: v2 :: rest =>
    let nonZero := (v1 :: v2 :: rest).filter (fun v => decide (0 < v))
    if h : nonZero = [] then some ((v1 :: v2 :: rest).getLast (by simp))
    else some (nonZero.getLast h)

/-! ### Delimited-text extractor (`src/core/prefeitura/extractFromCsvReport.ts`) -/

/-- `text.split(/\r?\n/)`. -/
def splitLinesChars : List Char → List (List Char)
  | [] => [[]]
  | '\r' :: '\n' :: rest => [] :: splitLinesChars rest
  | '\n' :: rest => [] :: splitLinesChars rest
  | c :: rest =>
    match splitLinesChars rest with
    | [] => [[c]]
    | l :: ls => (c :: l) :: ls

/-- Count occurrences of a delimiter outside quoted spans: a doubled quote
is an escaped literal, a single quote toggles the in-quotes flag. -/
def countOutsideQuotes (delim : Char) : Bool → List Char → ℕ
  | _, [] => 0
  | inQ, '"' :: '"' :: rest => countOutsideQuotes delim inQ rest
  | inQ, '"' :: rest => countOutsideQuotes delim (!inQ) rest
  | inQ, c :: rest =>
    (if !inQ && c == delim then 1 else 0) + countOutsideQuotes delim inQ rest

/-- Result of the delimiter detector. -/
structure DelimiterResult where
  delimiter : Char
  avgCount : ℚ
  confidence : Confidence
deriving Repr

/-- `detectDelimiter` (`src/unnamed/part_011`, `detectDelimiter.ts`): trim
every line, drop the empty ones, keep at most 30 sample lines; count each
candidate of `, ; tab |` outside quoted spans over those trimmed lines and
take the candidate with the strictly greatest mean count per line, scanning
comma, semicolon, tab, pipe from a comma start (so ties keep the earlier
candidate); confidence is high above mean 3, medium above mean 1, else low;
an empty sample yields comma with mean 0 and low confidence.  The source's
debug `counts` record is not retained. -/
def detectDelimiter (lines : List (List Char)) : DelimiterResult :=
  let sampleLines := ((lines.map trimChars).filter (fun l => !l.isEmpty)).take 30
  if sampleLines.length = 0 then ⟨',', 0, .low⟩
  else
    let avgCounts : Char → ℚ := fun d =>
      ((sampleLines.map (countOutsideQuotes d false)).sum : ℚ)
        / (sampleLines.length : ℚ)
    let best := [',', ';', '\t', '|'].foldl
      (fun acc d => if acc.2 < avgCounts d then (d, avgCounts d) else acc)
      (',', avgCounts ',')
    ⟨best.1, best.2,
      if 3 < best.2 then .high else if 1 < best.2 then .medium else .low⟩

/-- `chooseValue` candidates of one CSV line: quoted tokens, then `R$`
tokens, then bare locale tokens, deduplicated by raw substring before
parsing (extractFromCsvReport.ts lines 46–87). -/
def collectValores : List String → List String → List ℚ
  | [], _ => []
  | t :: ts, seen =>
    if t ∈ seen then collectValores ts seen
    else
      match parseBRL t with
      | some v => v :: collectValores ts (t :: seen)
      | none => collectValores ts (t :: seen)

def extractAllValores (line : List Char) : List ℚ :=
  collectValores
    ((scanTokens quotedAt line.length line).map String.mk
      ++ (scanTokens rsAt line.length line).map String.mk
      ++ (scanTokensB line.length false line).map String.mk) []

/-- The mutable scan state of the CSV extractor loop. -/
structure CsvState where
  rows : List NormalizedRow := []
  competencia : Option String := none
  evento : Option String := none
  eventosVistos : List String := []
  totalLines : ℕ := 0
  dataLinesDetected : ℕ := 0
  extractedRows : ℕ := 0
  discardedNoValue : ℕ := 0
  discardedNoMatricula : ℕ := 0
deriving Repr

/-- One iteration of the line loop of `extractFromCsvReport`
(lines 193–273). -/
def csvProcessLine (delimiter : Char) (st0 : CsvState) (line : List Char) :
    CsvState :=
  let st := { st0 with totalLines := st0.totalLines + 1 }
  let t := trimChars line
  if t = [] then st
  else
    let st := if st.competencia = none then
        { st with competencia := detectCompetenciaChars t }
      else st
    match findEvento 3 t with
    | some ds =>
      let code := pad3 (Nat.repr (digitsToNat ds))
      { st with
        evento := some code
        eventosVistos :=
          if code ∈ st.eventosVistos then st.eventosVistos
          else st.eventosVistos ++ [code] }
    | none =>
      match extractMatricula delimiter t with
      | none => st
      | some m =>
        if m.length < 3 then
          { st with discardedNoMatricula := st.discardedNoMatricula + 1 }
        else
          let st := { st with dataLinesDetected := st.dataLinesDetected + 1 }
          let valores := extractAllValores t
          if valores = [] then
            { st with discardedNoValue := st.discardedNoValue + 1 }
          else
            match chooseValueCsv valores with
            | none => { st with discardedNoValue := st.discardedNoValue + 1 }
            | some v =>
              { st with
                rows := st.rows ++
                  [{ source := .prefeitura, matricula := m, valor := v,
                     competencia := st.competencia, evento := st.evento,
                     confidence := if valores.length = 1 then .high else .medium,
                     rawRef := String.mk (t.take 300) }]
                extractedRows := st.extractedRows + 1 }

/-- Result shape of the CSV extractor. -/
structure CsvReportExtractionResult where
  rows : List NormalizedRow
  diagnostics : List DiagnosticsItem
  competencia : Option String
deriving Repr

/-- `extractFromCsvReport` (lines 157–327): delimiter detection, stateful
line loop, then the diagnostics pushed in source order (delimiter info,
parse summary, `CSV_NO_ROWS` on zero rows, competencia / evento warnings). -/
def extractFromCsvReport (text : String) : CsvReportExtractionResult :=
  let lines := splitLinesChars text.toList
  let delimRes := detectDelimiter lines
  let final := lines.foldl (csvProcessLine delimRes.delimiter) {}
  { rows := final.rows
    diagnostics :=
      [{ severity := .info, code := "CSV_DELIMITER_DETECTED" },
       { severity := if 0 < final.extractedRows then .info else .error,
         code := "CSV_PARSE_SUMMARY" }]
      ++ (if final.extractedRows = 0 then
            [{ severity := .error, code := "CSV_NO_ROWS" }] else [])
      ++ (if final.competencia = none ∧ 0 < final.extractedRows then
            [{ severity := .warn, code := "CSV_COMPETENCIA_NOT_FOUND" }] else [])
      ++ (if final.eventosVistos = [] ∧ 0 < final.extractedRows then
            [{ severity := .warn, code := "CSV_EVENT_NOT_FOUND" }] else [])
    competencia := final.competencia }

/-! ### Free-text extractor, standard strategy
(`src/core/prefeitura/connectors/text/parseTextReport.ts`, lines 64–146) -/

/-- The mutable scan state of the text extractor's standard strategy. -/
structure TextState where
  rows : List NormalizedRow := []
  competencia : Option String := none
  evento : Option String := none
  eventosDetectados : ℕ := 0
  dataLinesDetected : ℕ := 0
  extractedRows : ℕ := 0
  discardedNoValue : ℕ := 0
deriving Repr

/-- One iteration of the standard-format line loop of `parseTextReport`
(lines 77–135): evento pattern `Evento:\s*(\d{1,4})`, start-anchored then
anywhere key match, all bare locale tokens (no dedup), text `chooseValue`. -/
def textProcessLine (st0 : TextState) (line : List Char) : TextState :=
  let t := trimChars line
  if t = [] then st0
  else
    let st := if st0.competencia = none then
        { st0 with competencia := detectCompetenciaChars t }
      else st0
    match findEvento 4 t with
    | some ds =>
      { st with
        evento := some (pad3 (String.mk ds))
        eventosDetectados := st.eventosDetectados + 1 }
    | none =>
      match
        (match matriculaHere (t.dropWhile isJsSpace) with
          | some m => some m
          | none => matriculaAnywhere false t) with
      | none => st
      | some m =>
        let st := { st with dataLinesDetected := st.dataLinesDetected + 1 }
        let valores := ((scanTokensB t.length false t).map String.mk).filterMap parseBRL
        match chooseValueText valores with
        | none => { st with discardedNoValue := st.discardedNoValue + 1 }
        | some v =>
          { st with
            rows := st.rows ++
              [{ source := .prefeitura, matricula := m, valor := v,
                 competencia := st.competencia, evento := st.evento,
                 confidence := if valores.length = 1 then .high else .medium,
                 rawRef := String.mk (t.take 300) }]
            extractedRows := st.extractedRows + 1 }

/-- Rows of `parseStandardFormat`. -/
def parseStandardFormatRows (text : String) : TextState :=
  (splitLinesChars text.toList).foldl textProcessLine {}

/-! ### Value selection across multiple candidates (claim C4) -/

/-- A spreadsheet cell after `parseSheetValue` normalization:
`string | number | null`. -/
inductive Cell
  | str (s : String)
  | num (q : ℚ)
  | null
deriving DecidableEq, Repr

/-- Exact shape `^\d{3}\.\d{3}\.\d{3}-\d{2}$` (CPF_REGEX of
parseSheetValue.ts). -/
def cpfShape (cs : List Char) : Bool :=
  match cs with
  | [a, b, c, d, e, f, g, i, j, k, l, m, n, o] =>
    a.isDigit && b.isDigit && c.isDigit && d == '.'
      && e.isDigit && f.isDigit && g.isDigit && i == '.'
      && j.isDigit && k.isDigit && l.isDigit && m == '-'
      && n.isDigit && o.isDigit
  | _ => false

/-- `cellLooksCpf`: `String(cell).trim()` against the CPF shape.  The JS
rendering of a number contains at most one `.` and a `-` only as leading
sign or after `e`, so it can never assume the two-dot hyphenated CPF shape;
`null` is rejected up front. -/
def cellLooksCpf : Cell → Bool
  | .str s => cpfShape (trimChars s.toList)
  | .num _ => false
  | .null => false

/-- `parseCellAsMonetary` (parseSheetValue.ts lines 59–84): `null` for empty
cells and CPF-shaped text, the numeric value of a number cell (every `ℚ` is
finite), the locale-parsed value of a string cell, and `null` for any value
above `MAX_REASONABLE_VALUE = 50000`. -/
def parseCellAsMonetary (cell : Cell) : Option ℚ :=
  match cell with
  | .null => none
  | _ =>
    if cellLooksCpf cell then none
    else
      let value : Option ℚ :=
        match cell with
        | .num q => some q
        | .str s => parseBRL s
        | .null => none
      match value with
      | some v => if 50000 < v then none else some v
      | none => none

/-- `parseCellAsMatricula`: the anywhere key pattern on `String(cell).trim()`.
A JS number rendering never contains a digit run followed by `-` (the sign
is leading, the exponent marker `e` is a word character blocking the
boundary), so number cells never match. -/
def parseCellAsMatricula : Cell → Option String
  | .str s => matriculaAnywhere false (trimChars s.toList)
  | .num _ => none
  | .null => none

/-- `^\d{1,3}$` on the trimmed cell text. -/
def shortCodeShape (cs : List Char) : Bool :=
  !cs.isEmpty && cs.length ≤ 3 && cs.all Char.isDigit

/-- The short event-code test of detectSheetColumns.ts (lines 56–61):
`String(cell).trim()` against `^\d{1,3}$`.  A number cell renders to such a
string exactly when it is an integer between 0 and 999. -/
def cellEventoHit : Cell → Bool
  | .str s => shortCodeShape (trimChars s.toList)
  | .num q => decide (q.den = 1 ∧ 0 ≤ q.num ∧ q.num ≤ 999)
  | .null => false

/-- Hit count of the employee-key pattern in a column (cells past a row's
length are `undefined` in JS and match nothing, like `Cell.null`). -/
def matriculaHitsCol (rows : List (List Cell)) (col : ℕ) : ℕ :=
  rows.countP (fun row => (parseCellAsMatricula (row.getD col .null)).isSome)

/-- Hit count of non-negative monetary values in a column. -/
def valorHitsCol (rows : List (List Cell)) (col : ℕ) : ℕ :=
  rows.countP (fun row =>
    match parseCellAsMonetary (row.getD col .null) with
    | some v => decide (0 ≤ v)
    | none => false)

/-- Sum of the non-negative monetary values in a column. -/
def valorSumsCol (rows : List (List Cell)) (col : ℕ) : ℚ :=
  (rows.map (fun row =>
    match parseCellAsMonetary (row.getD col .null) with
    | some v => if 0 ≤ v then v else 0
    | none => 0)).sum

/-- Hit count of the short event-code shape in a column. -/
def eventoHitsCol (rows : List (List Cell)) (col : ℕ) : ℕ :=
  rows.countP (fun row => cellEventoHit (row.getD col .null))

/-- The loop of `indexOfMax` (detectSheetColumns.ts lines 130–142), keeping
the running maximum value and its first index; only a strictly greater value
replaces the current best. -/
def indexOfMaxGo {α : Type} [LinearOrder α] :
    List α → ℕ → α → ℕ → ℕ × α
  | [], maxIdx, maxVal, _ => (maxIdx, maxVal)
  | v :: rest, maxIdx, maxVal, i =>
    if maxVal < v then indexOfMaxGo rest i v (i + 1)
    else indexOfMaxGo rest maxIdx maxVal (i + 1)

/-- `indexOfMax`: index of the first occurrence of the maximum. -/
def indexOfMax {α : Type} [LinearOrder α] : List α → ℕ
  | [] => 0
  | a :: rest => (indexOfMaxGo rest 0 a 1).1

/-- One candidate amount column. -/
structure ValorCandidate where
  col : ℕ
  hits : ℤ
  sum : ℚ
deriving DecidableEq, Repr

/-- The candidate comparator (detectSheetColumns.ts lines 91–94): sum
descending, hit count descending as tie-break; JS stable sort keeps equal
candidates in column order. -/
def candLe (a b : ValorCandidate) : Bool :=
  decide (b.sum < a.sum ∨ (a.sum = b.sum ∧ b.hits ≤ a.hits))

/-- Result of the column inference. -/
structure ColumnDetectionResult where
  matriculaCol : ℕ
  valorCol : ℕ
  eventoCol : Option ℕ
  confidence : Confidence
deriving DecidableEq, Repr

/-- `maxCols = Math.max(...rows.map(r => r.length))` (all lengths are
non-negative, so the fold floor `0` is inert for non-empty input). -/
def sheetMaxCols (rows : List (List Cell)) : ℕ :=
  (rows.map List.length).foldl max 0

/-- The per-column key-pattern hit array. -/
def sheetMHits (rows : List (List Cell)) : List ℕ :=
  (List.range (sheetMaxCols rows)).map (matriculaHitsCol rows)

/-- The chosen employee-key column. -/
def sheetMatriculaCol (rows : List (List Cell)) : ℕ :=
  indexOfMax (sheetMHits rows)

/-- `valorHits` after masking the key column with `-1`. -/
def sheetVHits (rows : List (List Cell)) (c : ℕ) : ℤ :=
  if c = sheetMatriculaCol rows then -1 else (valorHitsCol rows c : ℤ)

/-- `valorSums` after masking the key column with `-1`. -/
def sheetVSums (rows : List (List Cell)) (c : ℕ) : ℚ :=
  if c = sheetMatriculaCol rows then -1 else valorSumsCol rows c

/-- The amount-column candidates: columns with at least one hit. -/
def sheetValorCandidates (rows : List (List Cell)) : List ValorCandidate :=
  (List.range (sheetMaxCols rows)).filterMap
    (fun c => if 0 < sheetVHits rows c then
        some ⟨c, sheetVHits rows c, sheetVSums rows c⟩ else none)

/-- `valorCandidates.sort(...)[0]` (the default is never used: the caller
checks the candidate list for emptiness first). -/
def sheetBest (rows : List (List Cell)) : ValorCandidate :=
  (sortBy candLe (sheetValorCandidates rows)).headD ⟨0, -1, -1⟩

/-- `eventoHits` after masking the key and amount columns with `-1`. -/
def sheetEHits (rows : List (List Cell)) (c : ℕ) : ℤ :=
  if c = sheetMatriculaCol rows ∨ c = (sheetBest rows).col then -1
  else (eventoHitsCol rows c : ℤ)

def sheetEArr (rows : List (List Cell)) : List ℤ :=
  (List.range (sheetMaxCols rows)).map (sheetEHits rows)

/-- `detectSheetColumns` (lines 20–125): employee-key column by maximum hit
count (failure when the best has zero hits), amount column by maximum summed
value among non-key columns with at least one hit (hit count as tie-break,
the stable sort keeping earlier columns on full ties), event column by
maximum short-code hits among the remaining columns, confidence from the key
and amount hit fractions. -/
def detectSheetColumns (rows : List (List Cell)) :
    Option ColumnDetectionResult :=
  if rows.length = 0 then none
  else if sheetMaxCols rows = 0 then none
  else if (sheetMHits rows).getD (sheetMatriculaCol rows) 0 = 0 then none
  else if sheetValorCandidates rows = [] then none
  else
    some
      { matriculaCol := sheetMatriculaCol rows
        valorCol := (sheetBest rows).col
        eventoCol :=
          if 0 < (sheetEArr rows).getD (indexOfMax (sheetEArr rows)) 0 then
            some (indexOfMax (sheetEArr rows))
          else none
        confidence :=
          if 7 / 10 ≤ (((sheetMHits rows).getD (sheetMatriculaCol rows) 0 : ℚ)
                / (rows.length : ℚ))
              ∧ 7 / 10 ≤ (((sheetBest rows).hits : ℚ) / (rows.length : ℚ)) then .high
          else if 4 / 10 ≤ (((sheetMHits rows).getD (sheetMatriculaCol rows) 0 : ℚ)
                / (rows.length : ℚ))
              ∧ 4 / 10 ≤ (((sheetBest rows).hits : ℚ) / (rows.length : ℚ)) then .medium
          else .low }

/-- Concrete 2×3 grid for the amount-column selection rule: key column 0,
a zero-valued column 1 with two monetary hits, and a real-figure column 2
with a single hit summing 300. -/
def c6grid : List (List Cell) :=
  [[Cell.str "100-1", Cell.num 0, Cell.num 300],
   [Cell.str "200-2", Cell.num 0, Cell.null]]

/-! ### Ingestion router
(`src/core/prefeitura/PrefeituraExtractor.ts`; the `unnamed/part_006`
variant adds the xlsx and xls connectors and lists five supported
formats) -/

/-- `String.prototype.split` with a one-character separator: every
occurrence splits, empty segments are kept, and the empty string yields a
single empty segment. -/
def splitOnChar (sep : Char) : List Char → List (List Char)
  | [] => [[]]
  | c :: cs =>
    if c = sep then [] :: splitOnChar sep cs
    else
      match splitOnChar sep cs with
      | [] => [[c]]
      | seg :: rest => (c :: seg) :: rest

/-- `PrefeituraExtractor.getExtension`: the segment after the last dot,
lowercased (ASCII `toLowerCase`, which covers every extension the router
compares against), or `""` when the file name contains no dot. -/
def getExtension (fileName : String) : String :=
  let parts := splitOnChar '.' fileName.toList
  if parts.length < 2 then ""
  else String.mk ((parts.getLastD []).map Char.toLower)

/-- The `PrefeituraFormato` union of both router variants (the src/ variant
never produces the xlsx/xls tags). -/
inductive PrefeituraFormato
  | csv_report_v1 | pdf_text_report_v1 | docx_text_report_v1
  | xlsx_table_v1 | xls_table_v1 | unknown
deriving DecidableEq, Repr

/-- Result shape of the ingestion router. -/
structure PrefeituraExtractionResult where
  rows : List NormalizedRow
  diagnostics : List DiagnosticsItem
  competencia : Option String
  formato : PrefeituraFormato
  extracao : Option Extracao
deriving Repr

/-- The csv branch of `PrefeituraExtractor.extract`: the CSV-extractor
result plus the formato tag and the extraction-quality verdict computed
from the row count and the presence of an error diagnostic. -/
def csvBranch (csvText : String) : PrefeituraExtractionResult :=
  let result := extractFromCsvReport csvText
  let hasError := result.diagnostics.any (fun d => decide (d.severity = .error))
  { rows := result.rows
    diagnostics := result.diagnostics
    competencia := result.competencia
    formato := .csv_report_v1
    extracao := some (if result.rows.length = 0 then .falhou
      else if hasError then .parcial else .completa) }

/-- `PrefeituraExtractor.extract` (src/ variant, lines 36–89).  The pdf and
docx connectors live outside the embedded core, so their results enter as
parameters; the routing on the extension is translated from the source. -/
def prefeituraExtract (fileName : String) (csvText : String)
    (pdfResult docxResult : PrefeituraExtractionResult) :
    PrefeituraExtractionResult :=
  let extension := getExtension fileName
  if extension = "csv" then csvBranch csvText
  else if extension = "pdf" then pdfResult
  else if extension = "docx" then docxResult
  else
    { rows := []
      diagnostics :=
        [{ severity := .error
           code := "prefeitura_unsupported_format"
           message := "Formato de arquivo não suportado: ."
             ++ (if extension = "" then "(sem extensão)" else extension)
           details := .unsupportedFormat fileName extension
             ["csv", "pdf", "docx"] }]
      competencia := none
      formato := .unknown
      extracao := some .falhou }

/-- `PrefeituraExtractor.extract` (`unnamed/part_006` variant, lines
40–103): adds the xlsx and xls branches and lists five supported formats in
the unsupported-format diagnostic. -/
def prefeituraExtractV2 (fileName : String) (csvText : String)
    (pdfResult docxResult xlsxResult xlsResult : PrefeituraExtractionResult) :
    PrefeituraExtractionResult :=
  let extension := getExtension fileName
  if extension = "csv" then csvBranch csvText
  else if extension = "pdf" then pdfResult
  else if extension = "docx" then docxResult
  else if extension = "xlsx" then xlsxResult
  else if extension = "xls" then xlsResult
  else
    { rows := []
      diagnostics :=
        [{ severity := .error
           code := "prefeitura_unsupported_format"
           message := "Formato de arquivo não suportado: ."
             ++ (if extension = "" then "(sem extensão)" else extension)
           details := .unsupportedFormat fileName extension
             ["csv", "pdf", "docx", "xlsx", "xls"] }]
      competencia := none
      formato := .unknown
      extracao := some .falhou }

/-- Placeholder connector result used only to instantiate the router's
connector parameters at concrete inputs. -/
def emptyPrefResult : PrefeituraExtractionResult :=
  { rows := []
    diagnostics := []
    competencia := none
    formato := .unknown
    extracao := none }

/-! ### The CPF filter and the 50000 cap (claim C10) -/

theorem insertLe_length {α : Type} (le : α → α → Bool) (x : α) (l : List α) :
    (insertLe le x l).length = l.length + 1 := by
  induction l with
  | nil => rfl
  | cons y ys ih =>
    simp only [insertLe]
    split <;> simp [ih]

theorem sortBy_length {α : Type} (le : α → α → Bool) (l : List α) :
    (sortBy le l).length = l.length := by
  suffices h : ∀ acc : List α,
      (l.foldl (fun acc x => insertLe le x acc) acc).length = acc.length + l.length by
    simpa using h []
  induction l with
  | nil => intro acc; simp
  | cons x xs ih =>
    intro acc
    simp only [List.foldl_cons]
    rw [ih (insertLe le x acc), insertLe_length]
    simp only [List.length_cons]
    omega

theorem insertLe_perm {α : Type} (le : α → α → Bool) (x : α) (l : List α) :
    (insertLe le x l).Perm (x :: l) := by
  induction l with
  | nil => simp [insertLe]
  | cons y ys ih =>
    simp only [insertLe]
    split
    · exact (ih.cons y).trans (List.Perm.swap x y ys)
    · exact List.Perm.refl _

theorem sortBy_perm {α : Type} (le : α → α → Bool) (l : List α) :
    (sortBy le l).Perm l := by
  suffices h : ∀ acc : List α,
      (l.foldl (fun acc x => insertLe le x acc) acc).Perm (acc ++ l) by
    simpa using h []
  induction l with
  | nil => intro acc; simp
  | cons x xs ih =>
    intro acc
    simp only [List.foldl_cons]
    refine (ih (insertLe le x acc)).trans ?_
    refine (List.Perm.append_right xs ((insertLe_perm le x acc))).trans ?_
    exact List.perm_middle.symm

theorem insertLe_pairwise {α : Type} (le : α → α → Bool)
    (htot : ∀ a b, le a b = true ∨ le b a = true)
    (htrans : ∀ a b c, le a b = true → le b c = true → le a c = true)
    (x : α) (l : List α) (hl : l.Pairwise (fun a b => le a b = true)) :
    (insertLe le x l).Pairwise (fun a b => le a b = true) := by
  induction l with
  | nil => simp [insertLe]
  | cons y ys ih =>
    rcases List.pairwise_cons.mp hl with ⟨hy, hys⟩
    simp only [insertLe]
    by_cases h : le y x = true
    · rw [if_pos h]
      refine List.pairwise_cons.mpr ⟨?_, ih hys⟩
      intro z hz
      rcases List.mem_cons.mp ((List.Perm.mem_iff (insertLe_perm le x ys)).mp hz)
        with hz2 | hz2
      · subst hz2; exact h
      · exact hy z hz2
    · rw [if_neg h]
      have hxy : le x y = true := by
        rcases htot x y with h' | h'
        · exact h'
        · exact absurd h' h
      refine List.pairwise_cons.mpr ⟨?_, hl⟩
      intro z hz
      rcases List.mem_cons.mp hz with hz' | hz'
      · subst hz'; exact hxy
      · exact htrans x y z hxy (hy z hz')

theorem sortBy_pairwise {α : Type} (le : α → α → Bool)
    (htot : ∀ a b, le a b = true ∨ le b a = true)
    (htrans : ∀ a b c, le a b = true → le b c = true → le a c = true)
    (l : List α) :
    (sortBy le l).Pairwise (fun a b => le a b = true) := by
  suffices h : ∀ acc : List α, acc.Pairwise (fun a b => le a b = true) →
      (l.foldl (fun acc x => insertLe le x acc) acc).Pairwise
        (fun a b => le a b = true) by
    exact h [] (by simp)
  induction l with
  | nil => intro acc hacc; simpa using hacc
  | cons x xs ih =>
    intro acc hacc
    simp only [List.foldl_cons]
    exact ih (insertLe le x acc) (insertLe_pairwise le htot htrans x acc hacc)

/-! ### Reconciliation engine (`src/core/reconcile/Reconciler.ts`) -/

theorem findMatch_some_length {b v : ℚ} {l rest : List ℚ}
    (h : findMatch b l = some (v, rest)) : rest.length + 1 = l.length := by
  induction l generalizing v rest with
  | nil => simp [findMatch] at h
  | cons p ps ih =>
    rw [findMatch] at h
    by_cases hp : matchPred b p = true
    · rw [if_pos hp] at h
      simp only [Option.some.injEq, Prod.mk.injEq] at h
      rw [← h.2]
      simp
    · rw [if_neg hp] at h
      cases hfm : findMatch b ps with
      | none => rw [hfm] at h; simp at h
      | some pr =>
        obtain ⟨v2, rest2⟩ := pr
        rw [hfm] at h
        simp only [Option.some.injEq, Prod.mk.injEq] at h
        have hlen := ih hfm
        rw [← h.2]
        simp only [List.length_cons]
        omega

theorem phase1_cons (b : ℚ) (bs pref : List ℚ) :
    phase1 (b :: bs) pref =
      match findMatch b (phase1 bs pref).2.2 with
      | some (v, restPref) =>
          ((phase1 bs pref).1 ++ [(b, v)], (phase1 bs pref).2.1, restPref)
      | none =>
          ((phase1 bs pref).1, b :: (phase1 bs pref).2.1, (phase1 bs pref).2.2) :=
  rfl

theorem phase1_conservation (bs pref : List ℚ) :
    2 * (phase1 bs pref).1.length + (phase1 bs pref).2.1.length
      + (phase1 bs pref).2.2.length = bs.length + pref.length := by
  induction bs with
  | nil => simp [phase1]
  | cons b rest ih =>
    rw [phase1_cons]
    cases hfm : findMatch b (phase1 rest pref).2.2 with
    | none =>
      simp only [List.length_cons]
      omega
    | some pr =>
      obtain ⟨v, restPref⟩ := pr
      have hlen := findMatch_some_length hfm
      simp only [List.length_append, List.length_cons, List.length_nil]
      omega

theorem countStatus_append (s : Status) (l₁ l₂ : List ReconciliationItem) :
    countStatus s (l₁ ++ l₂) = countStatus s l₁ + countStatus s l₂ :=
  List.countP_append _ l₁ l₂

theorem countStatus_map {α : Type} (s t : Status) (f : α → ReconciliationItem)
    (hf : ∀ v, (f v).status = t) (l : List α) :
    countStatus s (l.map f) = if s = t then l.length else 0 := by
  unfold countStatus
  rw [List.countP_map]
  split
  · rename_i hs
    subst hs
    calc List.countP (fun v => decide ((f v).status = s)) l
        = List.countP (fun _ => true) l := by
          apply List.countP_congr
          intro v _
          simp [hf v]
      _ = l.length := by simp [List.countP_true]
  · rename_i hs
    calc List.countP (fun v => decide ((f v).status = s)) l
        = List.countP (fun _ => false) l := by
          apply List.countP_congr
          intro v _
          simp only [hf v, decide_eq_true_eq]
          constructor
          · intro h; exact absurd h.symm hs
          · intro h; exact absurd h Bool.false_ne_true
      _ = 0 := by simp [List.countP_false]

theorem countStatus_map_eq {α : Type} (t : Status) (f : α → ReconciliationItem)
    (hf : ∀ v, (f v).status = t) (l : List α) :
    countStatus t (l.map f) = l.length := by
  have h := countStatus_map t t f hf l
  simpa using h

theorem countStatus_map_ne {α : Type} (s t : Status) (hst : s ≠ t)
    (f : α → ReconciliationItem) (hf : ∀ v, (f v).status = t) (l : List α) :
    countStatus s (l.map f) = 0 := by
  have h := countStatus_map s t f hf l
  rw [if_neg hst] at h
  exact h

theorem sortAsc_length (l : List ℚ) : (sortAsc l).length = l.length :=
  sortBy_length _ l

theorem reconcileKey_conservation (m : String) (bVals pVals : List ℚ) :
    2 * countStatus .bateu (reconcileKey m bVals pVals)
      + 2 * countStatus .divergente (reconcileKey m bVals pVals)
      + countStatus .so_no_banco (reconcileKey m bVals pVals)
      + countStatus .so_na_prefeitura (reconcileKey m bVals pVals)
      = bVals.length + pVals.length := by
  have hcons := phase1_conservation bVals pVals
  rw [reconcileKey]
  split
  · rename_i hne
    simp only [countStatus_append]
    rw [countStatus_map_eq .bateu (mkBateu m) (fun v => rfl),
      countStatus_map_ne .divergente .bateu (by decide) (mkBateu m) (fun v => rfl),
      countStatus_map_ne .so_no_banco .bateu (by decide) (mkBateu m) (fun v => rfl),
      countStatus_map_ne .so_na_prefeitura .bateu (by decide) (mkBateu m) (fun v => rfl),
      countStatus_map_ne .bateu .divergente (by decide) (mkDivergente m) (fun v => rfl),
      countStatus_map_eq .divergente (mkDivergente m) (fun v => rfl),
      countStatus_map_ne .so_no_banco .divergente (by decide) (mkDivergente m) (fun v => rfl),
      countStatus_map_ne .so_na_prefeitura .divergente (by decide) (mkDivergente m)
        (fun v => rfl),
      countStatus_map_ne .bateu .so_no_banco (by decide) (mkSoNoBanco m) (fun v => rfl),
      countStatus_map_ne .divergente .so_no_banco (by decide) (mkSoNoBanco m) (fun v => rfl),
      countStatus_map_eq .so_no_banco (mkSoNoBanco m) (fun v => rfl),
      countStatus_map_ne .so_na_prefeitura .so_no_banco (by decide) (mkSoNoBanco m)
        (fun v => rfl),
      countStatus_map_ne .bateu .so_na_prefeitura (by decide) (mkSoNaPrefeitura m)
        (fun v => rfl),
      countStatus_map_ne .divergente .so_na_prefeitura (by decide) (mkSoNaPrefeitura m)
        (fun v => rfl),
      countStatus_map_ne .so_no_banco .so_na_prefeitura (by decide) (mkSoNaPrefeitura m)
        (fun v => rfl),
      countStatus_map_eq .so_na_prefeitura (mkSoNaPrefeitura m) (fun v => rfl)]
    simp only [List.length_zip, List.length_drop, sortAsc_length]
    omega
  · rename_i hne
    simp only [countStatus_append]
    rw [countStatus_map_eq .bateu (mkBateu m) (fun v => rfl),
      countStatus_map_ne .divergente .bateu (by decide) (mkBateu m) (fun v => rfl),
      countStatus_map_ne .so_no_banco .bateu (by decide) (mkBateu m) (fun v => rfl),
      countStatus_map_ne .so_na_prefeitura .bateu (by decide) (mkBateu m) (fun v => rfl),
      countStatus_map_ne .bateu .so_no_banco (by decide) (mkSoNoBanco m) (fun v => rfl),
      countStatus_map_ne .divergente .so_no_banco (by decide) (mkSoNoBanco m) (fun v => rfl),
      countStatus_map_eq .so_no_banco (mkSoNoBanco m) (fun v => rfl),
      countStatus_map_ne .so_na_prefeitura .so_no_banco (by decide) (mkSoNoBanco m)
        (fun v => rfl),
      countStatus_map_ne .bateu .so_na_prefeitura (by decide) (mkSoNaPrefeitura m)
        (fun v => rfl),
      countStatus_map_ne .divergente .so_na_prefeitura (by decide) (mkSoNaPrefeitura m)
        (fun v => rfl),
      countStatus_map_ne .so_no_banco .so_na_prefeitura (by decide) (mkSoNaPrefeitura m)
        (fun v => rfl),
      countStatus_map_eq .so_na_prefeitura (mkSoNaPrefeitura m) (fun v => rfl)]
    omega

theorem mem_dedupFirstAux (a : String) (seen l : List String) :
    a ∈ dedupFirstAux seen l ↔ a ∈ l ∧ a ∉ seen := by
  induction l generalizing seen with
  | nil => simp [dedupFirstAux]
  | cons x xs ih =>
    rw [dedupFirstAux]
    by_cases hx : x ∈ seen
    · rw [if_pos hx, ih]
      constructor
      · exact fun h => ⟨List.mem_cons_of_mem x h.1, h.2⟩
      · rintro ⟨h1, h2⟩
        rcases List.mem_cons.mp h1 with h3 | h3
        · subst h3; exact absurd hx h2
        · exact ⟨h3, h2⟩
    · rw [if_neg hx]
      constructor
      · intro h
        rcases List.mem_cons.mp h with h3 | h3
        · subst h3; exact ⟨List.mem_cons_self _ _, hx⟩
        · have := (ih (x :: seen)).mp h3
          refine ⟨List.mem_cons_of_mem x this.1, fun hc => this.2 (List.mem_cons_of_mem x hc)⟩
      · rintro ⟨h1, h2⟩
        rcases List.mem_cons.mp h1 with h3 | h3
        · subst h3; exact List.mem_cons_self a _
        · by_cases hax : a = x
          · subst hax; exact List.mem_cons_self a _
          · exact List.mem_cons_of_mem x
              ((ih (x :: seen)).mpr ⟨h3, by simp [hax, h2]⟩)

theorem nodup_dedupFirstAux (seen l : List String) :
    (dedupFirstAux seen l).Nodup := by
  induction l generalizing seen with
  | nil => simp [dedupFirstAux]
  | cons x xs ih =>
    rw [dedupFirstAux]
    by_cases hx : x ∈ seen
    · rw [if_pos hx]; exact ih seen
    · rw [if_neg hx]
      refine List.nodup_cons.mpr ⟨?_, ih (x :: seen)⟩
      intro hc
      exact ((mem_dedupFirstAux x (x :: seen) xs).mp hc).2 (List.mem_cons_self x seen)

theorem mem_dedupFirst (a : String) (l : List String) :
    a ∈ dedupFirst l ↔ a ∈ l := by
  rw [dedupFirst, mem_dedupFirstAux]
  simp

theorem nodup_dedupFirst (l : List String) : (dedupFirst l).Nodup :=
  nodup_dedupFirstAux [] l

theorem sum_map_add_split {α : Type} (l : List α) (f g : α → ℕ) :
    (l.map (fun x => f x + g x)).sum = (l.map f).sum + (l.map g).sum := by
  induction l with
  | nil => rfl
  | cons x xs ih => simp only [List.map_cons, List.sum_cons, ih]; omega

theorem sum_map_ite_eq (keys : List String) (a : String) :
    (keys.map (fun m => if a = m then 1 else 0)).sum = keys.count a := by
  induction keys with
  | nil => rfl
  | cons k ks ih =>
    simp only [List.map_cons, List.sum_cons, ih, List.count_cons]
    by_cases h : a = k
    · subst h
      simp only [if_pos rfl, beq_self_eq_true, if_true]
      omega
    · have hba : (k == a) = false := beq_eq_false_iff_ne.mpr (fun hc => h hc.symm)
      rw [if_neg h, hba]
      simp

/-- Each key of a deduplicated covering key list accounts for its own rows:
the group sizes sum to the number of rows. -/
theorem sum_valuesOf_length (rows : List NormalizedRow) (keys : List String)
    (hnd : keys.Nodup) (hcov : ∀ r ∈ rows, r.matricula ∈ keys) :
    (keys.map (fun m => (valuesOf rows m).length)).sum = rows.length := by
  induction rows with
  | nil => simp [valuesOf]
  | cons r rs ih =>
    have hsplit : ∀ m : String, (valuesOf (r :: rs) m).length
        = (if r.matricula = m then 1 else 0) + (valuesOf rs m).length := by
      intro m
      simp only [valuesOf, List.filter_cons, List.length_map]
      by_cases h : r.matricula = m
      · simp [h]
        omega
      · simp [h]
    calc (keys.map (fun m => (valuesOf (r :: rs) m).length)).sum
        = (keys.map (fun m =>
            (if r.matricula = m then 1 else 0) + (valuesOf rs m).length)).sum := by
          congr 1
          exact List.map_congr_left (fun m _ => hsplit m)
      _ = (keys.map (fun m => if r.matricula = m then 1 else 0)).sum
            + (keys.map (fun m => (valuesOf rs m).length)).sum :=
          sum_map_add_split keys _ _
      _ = keys.count r.matricula + rs.length := by
          rw [sum_map_ite_eq, ih (fun x hx => hcov x (List.mem_cons_of_mem r hx))]
      _ = (r :: rs).length := by
          rw [List.count_eq_one_of_mem hnd (hcov r (List.mem_cons_self r rs))]
          simp
          omega

/-- Conservation over the whole key loop. -/
theorem flatMap_conservation (keys : List String)
    (bank pref : List NormalizedRow) :
    2 * countStatus .bateu (keys.flatMap
        (fun m => reconcileKey m (valuesOf bank m) (valuesOf pref m)))
      + 2 * countStatus .divergente (keys.flatMap
        (fun m => reconcileKey m (valuesOf bank m) (valuesOf pref m)))
      + countStatus .so_no_banco (keys.flatMap
        (fun m => reconcileKey m (valuesOf bank m) (valuesOf pref m)))
      + countStatus .so_na_prefeitura (keys.flatMap
        (fun m => reconcileKey m (valuesOf bank m) (valuesOf pref m)))
      = (keys.map (fun m => (valuesOf bank m).length + (valuesOf pref m).length)).sum := by
  induction keys with
  | nil => simp [countStatus]
  | cons k ks ih =>
    simp only [List.flatMap_cons, countStatus_append, List.map_cons, List.sum_cons]
    have hk := reconcileKey_conservation k (valuesOf bank k) (valuesOf pref k)
    omega

/-- C1 helper: the summary counters are the status counts over the
pre-sort item list. -/
theorem reconcile_counts (bankRows prefRows : List NormalizedRow) :
    (reconcile bankRows prefRows).summary.counts =
      { bateu := countStatus .bateu ((dedupFirst (bankRows.map (·.matricula)
          ++ prefRows.map (·.matricula))).flatMap
            (fun m => reconcileKey m (valuesOf bankRows m) (valuesOf prefRows m)))
        so_no_banco := countStatus .so_no_banco ((dedupFirst (bankRows.map (·.matricula)
          ++ prefRows.map (·.matricula))).flatMap
            (fun m => reconcileKey m (valuesOf bankRows m) (valuesOf prefRows m)))
        so_na_prefeitura := countStatus .so_na_prefeitura
          ((dedupFirst (bankRows.map (·.matricula)
            ++ prefRows.map (·.matricula))).flatMap
              (fun m => reconcileKey m (valuesOf bankRows m) (valuesOf prefRows m)))
        divergente := countStatus .divergente ((dedupFirst (bankRows.map (·.matricula)
          ++ prefRows.map (·.matricula))).flatMap
            (fun m => reconcileKey m (valuesOf bankRows m) (valuesOf prefRows m)))
        diagnostico := 0 } := rfl

/-- **C1** (matching conservation): for every pair of input row lists,
`2*matched + 2*divergent + bankOnly + authorityOnly` equals
`bankRows.length + prefRows.length` — every input row is consumed by exactly
one emitted item. -/
theorem reconcile_conservation (bankRows prefRows : List NormalizedRow) :
    2 * (reconcile bankRows prefRows).summary.counts.bateu
      + 2 * (reconcile bankRows prefRows).summary.counts.divergente
      + (reconcile bankRows prefRows).summary.counts.so_no_banco
      + (reconcile bankRows prefRows).summary.counts.so_na_prefeitura
      = bankRows.length + prefRows.length := by
  rw [reconcile_counts]
  have hflat := flatMap_conservation
    (dedupFirst (bankRows.map (·.matricula) ++ prefRows.map (·.matricula)))
    bankRows prefRows
  have hsplit := sum_map_add_split
    (dedupFirst (bankRows.map (·.matricula) ++ prefRows.map (·.matricula)))
    (fun m => (valuesOf bankRows m).length) (fun m => (valuesOf prefRows m).length)
  have hbank := sum_valuesOf_length bankRows
    (dedupFirst (bankRows.map (·.matricula) ++ prefRows.map (·.matricula)))
    (nodup_dedupFirst _)
    (fun r hr => (mem_dedupFirst _ _).mpr
      (List.mem_append_left _ (List.mem_map_of_mem (·.matricula) hr)))
  have hpref := sum_valuesOf_length prefRows
    (dedupFirst (bankRows.map (·.matricula) ++ prefRows.map (·.matricula)))
    (nodup_dedupFirst _)
    (fun r hr => (mem_dedupFirst _ _).mpr
      (List.mem_append_right _ (List.mem_map_of_mem (·.matricula) hr)))
  simp only []
  omega

/-! ### Match rate and quality of the summary (claims C8 and C9) -/

theorem round2_zero : round2 0 = 0 := by
  unfold round2
  norm_num

theorem round2_intCast (n : ℤ) : round2 ((n : ℚ)) = n := by
  unfold round2
  rw [show ((n : ℚ) * 100) = ((n * 100 : ℤ) : ℚ) by push_cast; ring, round_intCast]
  push_cast
  rw [mul_div_assoc]
  norm_num

/-- Evaluation helper for the tolerance predicate: when the absolute
difference is `n` hundredths, the match test is `n ≤ 1`. -/
theorem matchPred_eval (b p : ℚ) (n : ℤ) (h : |p - b| * 100 = (n : ℚ)) :
    matchPred b p = decide (n ≤ 1) := by
  unfold matchPred round2
  rw [h, round_intCast, decide_eq_decide]
  rw [div_le_div_iff_of_pos_right (by norm_num : (0:ℚ) < 100)]
  exact_mod_cast Iff.rfl

theorem taxaMatch_formula (bankRows prefRows : List NormalizedRow) :
    (reconcile bankRows prefRows).summary.taxaMatch =
      if (reconcile bankRows prefRows).summary.counts.bateu
          + (reconcile bankRows prefRows).summary.counts.divergente
          + (reconcile bankRows prefRows).summary.counts.so_no_banco
          + (reconcile bankRows prefRows).summary.counts.so_na_prefeitura = 0 then 0
      else round2 (((reconcile bankRows prefRows).summary.counts.bateu : ℚ)
        / (((reconcile bankRows prefRows).summary.counts.bateu
            + (reconcile bankRows prefRows).summary.counts.divergente
            + (reconcile bankRows prefRows).summary.counts.so_no_banco
            + (reconcile bankRows prefRows).summary.counts.so_na_prefeitura : ℕ) : ℚ)
        * 100) := by
  have hdef : (reconcile bankRows prefRows).summary.taxaMatch
      = round2 (if 0 < (reconcile bankRows prefRows).summary.counts.bateu
            + (reconcile bankRows prefRows).summary.counts.divergente
            + (reconcile bankRows prefRows).summary.counts.so_no_banco
            + (reconcile bankRows prefRows).summary.counts.so_na_prefeitura
          then ((reconcile bankRows prefRows).summary.counts.bateu : ℚ)
            / (((reconcile bankRows prefRows).summary.counts.bateu
                + (reconcile bankRows prefRows).summary.counts.divergente
                + (reconcile bankRows prefRows).summary.counts.so_no_banco
                + (reconcile bankRows prefRows).summary.counts.so_na_prefeitura : ℕ) : ℚ)
            * 100
          else 0) := rfl
  rw [hdef]
  rcases Nat.eq_zero_or_pos ((reconcile bankRows prefRows).summary.counts.bateu
      + (reconcile bankRows prefRows).summary.counts.divergente
      + (reconcile bankRows prefRows).summary.counts.so_no_banco
      + (reconcile bankRows prefRows).summary.counts.so_na_prefeitura) with h | h
  · rw [if_neg (by omega), if_pos h]
    exact round2_zero
  · rw [if_pos h, if_neg (by omega)]

/-- **C8** (match rate): `taxaMatch` is the matched count over the total item
count times 100, rounded to two decimals, and `0` when the denominator is
`0`; in particular two empty inputs give rate `0`. -/
theorem reconcile_taxaMatch (bankRows prefRows : List NormalizedRow) :
    ((reconcile bankRows prefRows).summary.taxaMatch =
      if (reconcile bankRows prefRows).summary.counts.bateu
          + (reconcile bankRows prefRows).summary.counts.divergente
          + (reconcile bankRows prefRows).summary.counts.so_no_banco
          + (reconcile bankRows prefRows).summary.counts.so_na_prefeitura = 0 then 0
      else round2 (((reconcile bankRows prefRows).summary.counts.bateu : ℚ)
        / (((reconcile bankRows prefRows).summary.counts.bateu
            + (reconcile bankRows prefRows).summary.counts.divergente
            + (reconcile bankRows prefRows).summary.counts.so_no_banco
            + (reconcile bankRows prefRows).summary.counts.so_na_prefeitura : ℕ) : ℚ)
        * 100))
    ∧ (reconcile ([] : List NormalizedRow) ([] : List NormalizedRow)).summary.taxaMatch
        = 0 := by
  refine ⟨taxaMatch_formula bankRows prefRows, ?_⟩
  rw [taxaMatch_formula [] []]
  have h0 : (reconcile ([] : List NormalizedRow) ([] : List NormalizedRow)).summary.counts.bateu
      + (reconcile ([] : List NormalizedRow) ([] : List NormalizedRow)).summary.counts.divergente
      + (reconcile ([] : List NormalizedRow) ([] : List NormalizedRow)).summary.counts.so_no_banco
      + (reconcile ([] : List NormalizedRow)
          ([] : List NormalizedRow)).summary.counts.so_na_prefeitura = 0 := rfl
  rw [if_pos h0]

/-- **C9** (quality): the reconciliation summary's quality is `falhou`
exactly when the authority row list is empty and `completa` otherwise;
`parcial` is never produced, because `detectExtracaoQualidade` is called on
the diagnostics list before anything is appended to it. -/
theorem reconcile_extracao (bankRows prefRows : List NormalizedRow) :
    ((reconcile bankRows prefRows).summary.extracao
        = if prefRows.isEmpty then .falhou else .completa)
    ∧ (reconcile bankRows prefRows).summary.extracao ≠ .parcial := by
  have heq : (reconcile bankRows prefRows).summary.extracao
      = detectExtracaoQualidade prefRows [] := rfl
  have hval : detectExtracaoQualidade prefRows []
      = if prefRows.isEmpty then .falhou else .completa := by
    unfold detectExtracaoQualidade
    simp only [List.any_nil, Bool.false_eq_true, if_false]
    cases prefRows <;> simp
  constructor
  · rw [heq, hval]
  · rw [heq, hval]
    split <;> simp

/-! ### Tolerance boundary (claim C2) -/

theorem reconcile_items_def (bankRows prefRows : List NormalizedRow) :
    (reconcile bankRows prefRows).items = sortBy itemLe
      ((dedupFirst (bankRows.map (·.matricula) ++ prefRows.map (·.matricula))).flatMap
        (fun m => reconcileKey m (valuesOf bankRows m) (valuesOf prefRows m))) := rfl

/-- Reconciling a single bank row against a single authority row with the
same key yields exactly one item, `bateu` iff the rounded absolute
difference is within tolerance, `divergente` (with the signed difference
note) otherwise. -/
theorem reconcile_single_pair (k : String) (b p : ℚ) :
    (reconcile [{ matricula := k, valor := b }] [{ matricula := k, valor := p }]).items
      = [if matchPred b p = true then
          { matricula := k, valorBanco := some b, valorPrefeitura := some p,
            status := .bateu }
         else
          { matricula := k, valorBanco := some b, valorPrefeitura := some p,
            status := .divergente, obs := some (b - p) }] := by
  rw [reconcile_items_def]
  have hkeys : dedupFirst (([{ matricula := k, valor := b }] :
        List NormalizedRow).map (·.matricula)
      ++ ([{ matricula := k, valor := p }] : List NormalizedRow).map (·.matricula))
      = [k] := by
    simp [dedupFirst, dedupFirstAux]
  rw [hkeys]
  have hvb : valuesOf [{ matricula := k, valor := b }] k = [b] := by simp [valuesOf]
  have hvp : valuesOf [{ matricula := k, valor := p }] k = [p] := by simp [valuesOf]
  simp only [List.flatMap_cons, List.flatMap_nil, List.append_nil, hvb, hvp]
  by_cases hm : matchPred b p = true
  · have hph : phase1 [b] [p] = ([(b, p)], [], []) := by
      simp [phase1, findMatch, hm]
    rw [reconcileKey, hph]
    simp only [ne_eq, not_true_eq_false, false_and, if_false, List.map_cons,
      List.map_nil, List.append_nil]
    rw [if_pos hm]
    simp [sortBy, insertLe, mkBateu]
  · have hm2 : matchPred b p = false := by
      revert hm
      cases matchPred b p <;> simp
    have hph : phase1 [b] [p] = ([], [b], [p]) := by
      simp [phase1, findMatch, hm2]
    rw [reconcileKey, hph]
    simp only [ne_eq, List.cons_ne_nil, not_false_eq_true, true_and, if_true,
      List.map_nil, List.nil_append]
    rw [if_neg hm]
    simp [sortAsc, sortBy, insertLe, mkDivergente]

/-- **C2** (tolerance boundary): a bank amount and an authority amount under
one key match exactly when the absolute difference, rounded to two decimal
places, is at most `0.01`; amounts `100.00` and `100.01` produce a `bateu`
item while `100.00` and `100.02` produce a `divergente` item (the boundary
is inclusive on the matched side). -/
theorem reconcile_tolerance_boundary :
    (∀ (k : String) (b p : ℚ),
      (reconcile [{ matricula := k, valor := b }]
          [{ matricula := k, valor := p }]).items
        = [if round2 |p - b| ≤ 1 / 100 then
            { matricula := k, valorBanco := some b, valorPrefeitura := some p,
              status := .bateu }
           else
            { matricula := k, valorBanco := some b, valorPrefeitura := some p,
              status := .divergente, obs := some (b - p) }])
    ∧ ((reconcile [{ matricula := "85-1", valor := 100 }]
          [{ matricula := "85-1", valor := 100.01 }]).items.map (·.status)
        = [.bateu])
    ∧ ((reconcile [{ matricula := "85-1", valor := 100 }]
          [{ matricula := "85-1", valor := 100.02 }]).items.map (·.status)
        = [.divergente]) := by
  have hgen : ∀ (k : String) (b p : ℚ),
      (reconcile [{ matricula := k, valor := b }]
          [{ matricula := k, valor := p }]).items
        = [if round2 |p - b| ≤ 1 / 100 then
            { matricula := k, valorBanco := some b, valorPrefeitura := some p,
              status := .bateu }
           else
            { matricula := k, valorBanco := some b, valorPrefeitura := some p,
              status := .divergente, obs := some (b - p) }] := by
    intro k b p
    rw [reconcile_single_pair]
    unfold matchPred
    by_cases h : round2 |p - b| ≤ 1 / 100
    · rw [if_pos h, if_pos (by simpa using h)]
    · rw [if_neg h, if_neg (by simpa using h)]
  refine ⟨hgen, ?_, ?_⟩
  · rw [hgen]
    rw [if_pos ?_]
    · rfl
    · have habs : |(100.01 : ℚ) - 100| * 100 = ((1 : ℤ) : ℚ) := by
        rw [show (100.01 : ℚ) - 100 = 1 / 100 by norm_num,
          abs_of_nonneg (by norm_num : (0:ℚ) ≤ 1 / 100)]
        norm_num
      have h1 : round2 |(100.01 : ℚ) - 100| = 1 / 100 := by
        unfold round2
        rw [habs, round_intCast]
        norm_num
      rw [h1]
  · rw [hgen]
    rw [if_neg ?_]
    · rfl
    · have habs : |(100.02 : ℚ) - 100| * 100 = ((2 : ℤ) : ℚ) := by
        rw [show (100.02 : ℚ) - 100 = 2 / 100 by norm_num,
          abs_of_nonneg (by norm_num : (0:ℚ) ≤ 2 / 100)]
        norm_num
      have h1 : round2 |(100.02 : ℚ) - 100| = 2 / 100 := by
        unfold round2
        rw [habs, round_intCast]
        norm_num
      rw [h1]
      norm_num

/-! ### Divergence pairing (claim C3) -/

theorem filter_div_of_ne {α : Type} (t : Status) (ht : ¬ t = .divergente)
    (f : α → ReconciliationItem) (hf : ∀ v, (f v).status = t) (l : List α) :
    (l.map f).filter (fun it => decide (it.status = .divergente)) = [] := by
  rw [List.filter_map]
  have hcomp : (fun it => decide (it.status = Status.divergente)) ∘ f
      = fun _ => false := by
    funext v
    simp [hf v, ht]
  rw [hcomp]
  simp

theorem filter_div_self (k : String) (l : List (ℚ × ℚ)) :
    ((l.map (mkDivergente k)).filter (fun it => decide (it.status = .divergente)))
      = l.map (mkDivergente k) := by
  rw [List.filter_map]
  have hcomp : (fun it => decide (it.status = Status.divergente)) ∘ (mkDivergente k)
      = fun _ => true := by
    funext v
    simp [mkDivergente]
  rw [hcomp]
  simp

/-- The divergent items of one key are exactly the positional pairing of the
ascending sorts of the two residual lists left by the matching phase. -/
theorem reconcileKey_divergentes (k : String) (bVals pVals : List ℚ) :
    (reconcileKey k bVals pVals).filter (fun it => decide (it.status = .divergente))
      = ((sortAsc (phase1 bVals pVals).2.1).zip
          (sortAsc (phase1 bVals pVals).2.2)).map (mkDivergente k) := by
  rw [reconcileKey]
  split
  · simp only [List.filter_append]
    rw [filter_div_of_ne .bateu (by decide) (mkBateu k) (fun v => rfl),
      filter_div_self k,
      filter_div_of_ne .so_no_banco (by decide) (mkSoNoBanco k) (fun v => rfl),
      filter_div_of_ne .so_na_prefeitura (by decide) (mkSoNaPrefeitura k) (fun v => rfl)]
    simp
  · rename_i hne
    simp only [List.filter_append]
    rw [filter_div_of_ne .bateu (by decide) (mkBateu k) (fun v => rfl),
      filter_div_of_ne .so_no_banco (by decide) (mkSoNoBanco k) (fun v => rfl),
      filter_div_of_ne .so_na_prefeitura (by decide) (mkSoNaPrefeitura k) (fun v => rfl)]
    have hempty : (phase1 bVals pVals).2.1 = [] ∨ (phase1 bVals pVals).2.2 = [] := by
      by_contra hc
      push_neg at hc
      exact hne ⟨hc.1, hc.2⟩
    rcases hempty with h | h <;> rw [h] <;> simp [sortAsc, sortBy]

/-- Tolerance test for amounts whose difference is a whole number of
currency units. -/
theorem matchPred_of_int_diff (b p : ℚ) (n : ℤ) (h : p - b = (n : ℚ)) :
    matchPred b p = decide (n = 0) := by
  have habs : |p - b| * 100 = ((|n| * 100 : ℤ) : ℚ) := by
    rw [h]
    push_cast
    ring
  rw [matchPred_eval b p (|n| * 100) habs, decide_eq_decide]
  rw [Int.abs_eq_natAbs]
  omega

/-- **C3** (divergence pairing): after tolerance matching, the residual
amounts of both sides are sorted ascending and paired by position (each pair
one `divergente` item with the signed difference); bank residuals
`[100, 200]` and authority residuals `[105, 210]` under one key pair as
`100↔105` and `200↔210`, never `100↔210`. -/
theorem reconcile_divergence_pairing :
    (∀ (k : String) (bVals pVals : List ℚ),
      (reconcileKey k bVals pVals).filter (fun it => decide (it.status = .divergente))
        = ((sortAsc (phase1 bVals pVals).2.1).zip
            (sortAsc (phase1 bVals pVals).2.2)).map (mkDivergente k))
    ∧ (reconcile
        [{ source := .banco, matricula := "85-1", valor := 100 },
         { source := .banco, matricula := "85-1", valor := 200 }]
        [{ matricula := "85-1", valor := 105 },
         { matricula := "85-1", valor := 210 }]).items
      = [{ matricula := "85-1", valorBanco := some 100, valorPrefeitura := some 105,
           status := .divergente, obs := some (-5) },
         { matricula := "85-1", valorBanco := some 200, valorPrefeitura := some 210,
           status := .divergente, obs := some (-10) }] := by
  refine ⟨reconcileKey_divergentes, ?_⟩
  rw [reconcile_items_def]
  have hkeys : dedupFirst (([{ source := .banco, matricula := "85-1", valor := 100 },
        { source := .banco, matricula := "85-1", valor := 200 }] :
        List NormalizedRow).map (·.matricula)
      ++ ([{ matricula := "85-1", valor := 105 },
        { matricula := "85-1", valor := 210 }] :
        List NormalizedRow).map (·.matricula)) = ["85-1"] := rfl
  rw [hkeys]
  have hvb : valuesOf [{ source := .banco, matricula := "85-1", valor := 100 },
      { source := .banco, matricula := "85-1", valor := 200 }] "85-1"
      = [100, 200] := rfl
  have hvp : valuesOf [{ matricula := "85-1", valor := 105 },
      { matricula := "85-1", valor := 210 }] "85-1" = [105, 210] := rfl
  simp only [List.flatMap_cons, List.flatMap_nil, List.append_nil, hvb, hvp]
  have hm1 : matchPred 200 105 = false := by
    rw [matchPred_of_int_diff 200 105 (-95) (by norm_num)]
    decide
  have hm2 : matchPred 200 210 = false := by
    rw [matchPred_of_int_diff 200 210 10 (by norm_num)]
    decide
  have hm3 : matchPred 100 105 = false := by
    rw [matchPred_of_int_diff 100 105 5 (by norm_num)]
    decide
  have hm4 : matchPred 100 210 = false := by
    rw [matchPred_of_int_diff 100 210 110 (by norm_num)]
    decide
  have hph : phase1 [100, 200] [105, 210] = ([], [100, 200], [105, 210]) := by
    simp [phase1, findMatch, hm1, hm2, hm3, hm4]
  rw [reconcileKey, hph]
  simp only [ne_eq, List.cons_ne_nil, not_false_eq_true, true_and, if_true,
    List.map_nil, List.nil_append]
  have hsb : sortAsc [100, 200] = [100, 200] := by
    simp [sortAsc, sortBy, insertLe, (by norm_num : (100:ℚ) ≤ 200)]
  have hsp : sortAsc [105, 210] = [105, 210] := by
    simp [sortAsc, sortBy, insertLe, (by norm_num : (105:ℚ) ≤ 210)]
  rw [hsb, hsp]
  simp only [List.zip_cons_cons, List.zip_nil_right, List.length_cons,
    List.length_nil, List.map_cons, List.map_nil]
  have hd1 : mkDivergente "85-1" ((100 : ℚ), (105 : ℚ))
      = { matricula := "85-1", valorBanco := some 100, valorPrefeitura := some 105,
          status := .divergente, obs := some (-5) } := by
    unfold mkDivergente
    norm_num
  have hd2 : mkDivergente "85-1" ((200 : ℚ), (210 : ℚ))
      = { matricula := "85-1", valorBanco := some 200, valorPrefeitura := some 210,
          status := .divergente, obs := some (-10) } := by
    unfold mkDivergente
    norm_num
  rw [hd1, hd2]
  have hmin : min ([(100:ℚ), 200].length) ([(105:ℚ), 210].length) = 2 := rfl
  have hdrop1 : List.drop 2 [(100:ℚ), 200] = [] := rfl
  have hdrop2 : List.drop 2 [(105:ℚ), 210] = [] := rfl
  have hile : itemLe
      { matricula := "85-1", valorBanco := some 100, valorPrefeitura := some 105,
        status := .divergente, obs := some (-5) }
      { matricula := "85-1", valorBanco := some 200, valorPrefeitura := some 210,
        status := .divergente, obs := some (-10) } = true := by
    simp [itemLe]
  simp [sortBy, insertLe, hile]

/-! ### Character-level scanning primitives

The extractors are driven by a handful of JS regexes over single lines.  We
embed each regex as a deterministic scanner over `List Char`, reproducing
the leftmost-match, greedy-with-backtracking semantics of the JS engine on
the concrete pattern (the analyses are recorded at each definition). -/

theorem extractMatricula_nil (delim : Char) : extractMatricula delim [] = none := rfl

/-- **C4** (value selection): with several numeric candidates on one data
line the emitted amount is the last non-zero candidate; when every candidate
is zero the amount is `0` (a valid amount, distinct from "no value"); a data
line with no candidates at all emits no row and increments
`discardedNoValue`.  Both `chooseValue` variants (CSV and free-text) agree,
and Scenario B `"85-1,X,"0,00","400,49""` selects `400.49`. -/
theorem chooseValue_last_non_zero :
    (chooseValueCsv [] = none ∧ chooseValueText [] = none)
    ∧ (∀ (vals : List ℚ) (v : ℚ),
        (vals.filter (fun x => decide (0 < x))).getLast? = some v →
        chooseValueCsv vals = some v ∧ chooseValueText vals = some v)
    ∧ (∀ vals : List ℚ, vals ≠ [] → (∀ v ∈ vals, v = 0) →
        chooseValueCsv vals = some 0 ∧ chooseValueText vals = some 0)
    ∧ (∀ (delim : Char) (st : CsvState) (line : List Char) (m : String),
        findEvento 3 (trimChars line) = none →
        extractMatricula delim (trimChars line) = some m →
        ¬ m.length < 3 →
        extractAllValores (trimChars line) = [] →
        (csvProcessLine delim st line).rows = st.rows
          ∧ (csvProcessLine delim st line).discardedNoValue
              = st.discardedNoValue + 1)
    ∧ chooseValueCsv (extractAllValores "85-1,X,\"0,00\",\"400,49\"".toList)
        = some 400.49 := by
  refine ⟨⟨rfl, rfl⟩, ?_, ?_, ?_, ?_⟩
  · intro vals v hlast
    match vals with
    | [] => simp at hlast
    | [v0] =>
      by_cases h0 : (0:ℚ) < v0
      · rw [List.filter_cons, if_pos (by simp [h0]), List.filter_nil] at hlast
        rw [List.getLast?_singleton] at hlast
        rw [Option.some.inj hlast]
        exact ⟨rfl, rfl⟩
      · rw [List.filter_cons, if_neg (by simp [h0]), List.filter_nil] at hlast
        simp at hlast
    | v1 :: v2 :: rest =>
      have hne : (v1 :: v2 :: rest).filter (fun x => decide (0 < x)) ≠ [] := by
        intro hc
        rw [hc] at hlast
        simp at hlast
      rw [List.getLast?_eq_getLast _ hne] at hlast
      have hv := Option.some.inj hlast
      constructor
      · simp only [chooseValueCsv]
        rw [dif_neg hne]
        exact congrArg some hv
      · simp only [chooseValueText]
        rw [dif_neg hne]
        exact congrArg some hv
  · intro vals hne hzero
    match vals with
    | [] => exact absurd rfl hne
    | [v0] =>
      have h0 : v0 = 0 := hzero v0 (List.mem_singleton_self v0)
      subst h0
      exact ⟨rfl, rfl⟩
    | v1 :: v2 :: rest =>
      have hfil : (v1 :: v2 :: rest).filter (fun x => decide (0 < x)) = [] := by
        rw [List.filter_eq_nil_iff]
        intro x hx
        rw [hzero x hx]
        simp
      constructor
      · simp only [chooseValueCsv]
        rw [dif_pos hfil]
      · simp only [chooseValueText]
        rw [dif_pos hfil]
        have hmem := List.getLast_mem (l := v1 :: v2 :: rest) (by simp)
        rw [hzero _ hmem]
  · intro delim st line m hev hmat hlen hvals
    have ht : trimChars line ≠ [] := by
      intro hc
      rw [hc, extractMatricula_nil] at hmat
      exact absurd hmat (by simp)
    by_cases hc : st.competencia = none
    · simp [csvProcessLine, if_neg ht, hev, hmat, if_neg hlen, hvals, hc]
    · simp [csvProcessLine, if_neg ht, hev, hmat, if_neg hlen, hvals, hc]
  · have hv : extractAllValores "85-1,X,\"0,00\",\"400,49\"".toList
      = [(digitsToNat ['0'] : ℚ) + (digitsToNat ['0', '0'] : ℚ) / 100,
         (digitsToNat ['4', '0', '0'] : ℚ) + (digitsToNat ['4', '9'] : ℚ) / 100] := rfl
    rw [hv, show digitsToNat ['0'] = 0 from rfl,
      show digitsToNat ['0', '0'] = 0 from rfl,
      show digitsToNat ['4', '0', '0'] = 400 from rfl,
      show digitsToNat ['4', '9'] = 49 from rfl]
    rw [chooseValueCsv]
    have hfil : [((0:ℕ) : ℚ) + ((0:ℕ) : ℚ) / 100,
        ((400:ℕ) : ℚ) + ((49:ℕ) : ℚ) / 100].filter (fun x => decide (0 < x))
        = [((400:ℕ) : ℚ) + ((49:ℕ) : ℚ) / 100] := by
      have c1 : (decide ((0:ℚ) < ((0:ℕ) : ℚ) + ((0:ℕ) : ℚ) / 100)) = false :=
        decide_eq_false (by norm_num)
      have c2 : (decide ((0:ℚ) < ((400:ℕ) : ℚ) + ((49:ℕ) : ℚ) / 100)) = true :=
        decide_eq_true (by norm_num)
      simp [List.filter_cons, c1, c2]
      norm_num
    rw [dif_neg (by rw [hfil]; simp)]
    simp only [hfil, List.getLast_singleton, Option.some.injEq]
    norm_num

/-! ### Event code capture and statefulness (claim C5) -/

theorem csvProcessLine_evento_set (delim : Char) (st : CsvState) (line : List Char)
    (ds : List Char) (hev : findEvento 3 (trimChars line) = some ds) :
    (csvProcessLine delim st line).evento = some (pad3 (Nat.repr (digitsToNat ds)))
    ∧ (csvProcessLine delim st line).rows = st.rows := by
  have ht : trimChars line ≠ [] := by
    intro hc
    rw [hc] at hev
    exact absurd hev (by simp [findEvento])
  by_cases hc : st.competencia = none <;>
    simp [csvProcessLine, if_neg ht, hev, hc]

theorem textProcessLine_evento_set (st : TextState) (line : List Char)
    (ds : List Char) (hev : findEvento 4 (trimChars line) = some ds) :
    (textProcessLine st line).evento = some (pad3 (String.mk ds))
    ∧ (textProcessLine st line).rows = st.rows := by
  have ht : trimChars line ≠ [] := by
    intro hc
    rw [hc] at hev
    exact absurd hev (by simp [findEvento])
  by_cases hc : st.competencia = none <;>
    simp [textProcessLine, if_neg ht, hev, hc]

theorem csvProcessLine_evento_keep (delim : Char) (st : CsvState) (line : List Char)
    (hev : findEvento 3 (trimChars line) = none) :
    (csvProcessLine delim st line).evento = st.evento
    ∧ ∀ r ∈ (csvProcessLine delim st line).rows,
        r ∈ st.rows ∨ r.evento = st.evento := by
  by_cases ht : trimChars line = []
  · refine ⟨by simp [csvProcessLine, ht], ?_⟩
    intro r hr
    left
    simpa [csvProcessLine, ht] using hr
  · by_cases hc : st.competencia = none
    all_goals (
      cases hm : extractMatricula delim (trimChars line) with
      | none =>
        refine ⟨by simp [csvProcessLine, if_neg ht, hev, hm, hc], ?_⟩
        intro r hr
        left
        simpa [csvProcessLine, if_neg ht, hev, hm, hc] using hr
      | some m =>
        by_cases hl : m.length < 3
        · refine ⟨by simp [csvProcessLine, if_neg ht, hev, hm, hl, hc], ?_⟩
          intro r hr
          left
          simpa [csvProcessLine, if_neg ht, hev, hm, hl, hc] using hr
        · by_cases hvv : extractAllValores (trimChars line) = []
          · refine ⟨by simp [csvProcessLine, if_neg ht, hev, hm, hl, hvv, hc], ?_⟩
            intro r hr
            left
            simpa [csvProcessLine, if_neg ht, hev, hm, hl, hvv, hc] using hr
          · cases hcv : chooseValueCsv (extractAllValores (trimChars line)) with
            | none =>
              refine ⟨by simp [csvProcessLine, if_neg ht, hev, hm, hl, hvv, hcv, hc], ?_⟩
              intro r hr
              left
              simpa [csvProcessLine, if_neg ht, hev, hm, hl, hvv, hcv, hc] using hr
            | some v =>
              refine ⟨by simp [csvProcessLine, if_neg ht, hev, hm, hl, hvv, hcv, hc], ?_⟩
              intro r hr
              have hr2 : r ∈ st.rows ++
                  [{ source := .prefeitura, matricula := m, valor := v,
                     competencia := (csvProcessLine delim st line).competencia,
                     evento := st.evento,
                     confidence := if (extractAllValores (trimChars line)).length = 1
                       then .high else .medium,
                     rawRef := String.mk ((trimChars line).take 300) }] := by
                simpa [csvProcessLine, if_neg ht, hev, hm, hl, hvv, hcv, hc] using hr
              rcases List.mem_append.mp hr2 with hr3 | hr3
              · exact Or.inl hr3
              · right
                rw [List.mem_singleton.mp hr3])

theorem textProcessLine_evento_keep (st : TextState) (line : List Char)
    (hev : findEvento 4 (trimChars line) = none) :
    (textProcessLine st line).evento = st.evento
    ∧ ∀ r ∈ (textProcessLine st line).rows,
        r ∈ st.rows ∨ r.evento = st.evento := by
  by_cases ht : trimChars line = []
  · refine ⟨by simp [textProcessLine, ht], ?_⟩
    intro r hr
    left
    simpa [textProcessLine, ht] using hr
  · by_cases hc : st.competencia = none
    all_goals (
      cases hm : (match matriculaHere ((trimChars line).dropWhile isJsSpace) with
          | some m => some m
          | none => matriculaAnywhere false (trimChars line)) with
      | none =>
        refine ⟨by simp [textProcessLine, if_neg ht, hev, hm, hc], ?_⟩
        intro r hr
        left
        simpa [textProcessLine, if_neg ht, hev, hm, hc] using hr
      | some m =>
        cases hcv : chooseValueText
            ((scanTokensB (trimChars line).length false (trimChars line)).filterMap
              (parseBRL ∘ String.mk)) with
        | none =>
          refine ⟨by simp [textProcessLine, if_neg ht, hev, hm, hcv, hc], ?_⟩
          intro r hr
          left
          simpa [textProcessLine, if_neg ht, hev, hm, hcv, hc] using hr
        | some v =>
          refine ⟨by simp [textProcessLine, if_neg ht, hev, hm, hcv, hc], ?_⟩
          intro r hr
          have hr2 : r ∈ st.rows ++
              [{ source := .prefeitura, matricula := m, valor := v,
                 competencia := (textProcessLine st line).competencia,
                 evento := st.evento,
                 confidence := if ((scanTokensB (trimChars line).length false
                     (trimChars line)).filterMap (parseBRL ∘ String.mk)).length = 1
                   then .high else .medium,
                 rawRef := String.mk ((trimChars line).take 300) }] := by
            simpa [textProcessLine, if_neg ht, hev, hm, hcv, hc] using hr
          rcases List.mem_append.mp hr2 with hr3 | hr3
          · exact Or.inl hr3
          · right
            rw [List.mem_singleton.mp hr3])

/-- **C5 counterexample**: the delimited-text extractor's event pattern
captures at most three digits (`EVENTO_REGEX = /Evento:\s*(\d{1,3})/i` in
extractFromCsvReport.ts), so the line `Evento: 1234` sets the current event
code to `"123"`, not to the four captured digits `"1234"` that the claimed
pattern `evento:\s*(\d{1,4})` would produce. -/
theorem csv_evento_truncation_counterexample :
    (csvProcessLine ',' {} "Evento: 1234".toList).evento = some "123"
    ∧ some "123" ≠ some "1234" := by
  constructor
  · decide
  · decide

theorem miniCsv_delimiter :
    (detectDelimiter (splitLinesChars
      "Evento: 002\n85-1,A,\"10,00\"\n12-3,B,\"20,00\"\nEvento: 015\n99-1,C,\"30,00\"".toList)).delimiter
      = ',' := by
  have hsample : (((splitLinesChars
      "Evento: 002\n85-1,A,\"10,00\"\n12-3,B,\"20,00\"\nEvento: 015\n99-1,C,\"30,00\"".toList).map
        trimChars).filter (fun l => !l.isEmpty)).take 30
      = splitLinesChars
        "Evento: 002\n85-1,A,\"10,00\"\n12-3,B,\"20,00\"\nEvento: 015\n99-1,C,\"30,00\"".toList := by
    decide
  have h1 : ((splitLinesChars
      "Evento: 002\n85-1,A,\"10,00\"\n12-3,B,\"20,00\"\nEvento: 015\n99-1,C,\"30,00\"".toList).map
        (countOutsideQuotes ',' false)).sum = 6 := by decide
  have h2 : ((splitLinesChars
      "Evento: 002\n85-1,A,\"10,00\"\n12-3,B,\"20,00\"\nEvento: 015\n99-1,C,\"30,00\"".toList).map
        (countOutsideQuotes ';' false)).sum = 0 := by decide
  have h3 : ((splitLinesChars
      "Evento: 002\n85-1,A,\"10,00\"\n12-3,B,\"20,00\"\nEvento: 015\n99-1,C,\"30,00\"".toList).map
        (countOutsideQuotes '\t' false)).sum = 0 := by decide
  have h4 : ((splitLinesChars
      "Evento: 002\n85-1,A,\"10,00\"\n12-3,B,\"20,00\"\nEvento: 015\n99-1,C,\"30,00\"".toList).map
        (countOutsideQuotes '|' false)).sum = 0 := by decide
  have hlen : (splitLinesChars
      "Evento: 002\n85-1,A,\"10,00\"\n12-3,B,\"20,00\"\nEvento: 015\n99-1,C,\"30,00\"".toList).length
      = 5 := by decide
  simp only [detectDelimiter, hsample, h1, h2, h3, h4, hlen, List.map_cons,
    List.map_nil, List.foldl_cons, List.foldl_nil]
  norm_num

/-- **C5 amended**: each line-scanning extractor keeps a current event code
that a matching `Evento:` line replaces and that is attached to every row
emitted on later lines until the next occurrence.  The free-text extractor's
pattern is `evento:\s*(\d{1,4})` as claimed, so `Evento: 1234` yields
`"1234"`; the delimited-text extractor's pattern captures only `\d{1,3}`, so
`Evento: 1234` yields `"123"` there.  Captures are left-zero-padded to three
characters in both. -/
theorem evento_statefulness_amended :
    (∀ (delim : Char) (st : CsvState) (line ds : List Char),
      findEvento 3 (trimChars line) = some ds →
      (csvProcessLine delim st line).evento = some (pad3 (Nat.repr (digitsToNat ds)))
        ∧ (csvProcessLine delim st line).rows = st.rows)
    ∧ (∀ (st : TextState) (line ds : List Char),
      findEvento 4 (trimChars line) = some ds →
      (textProcessLine st line).evento = some (pad3 (String.mk ds))
        ∧ (textProcessLine st line).rows = st.rows)
    ∧ (∀ (delim : Char) (st : CsvState) (line : List Char),
      findEvento 3 (trimChars line) = none →
      (csvProcessLine delim st line).evento = st.evento
        ∧ ∀ r ∈ (csvProcessLine delim st line).rows,
            r ∈ st.rows ∨ r.evento = st.evento)
    ∧ (∀ (st : TextState) (line : List Char),
      findEvento 4 (trimChars line) = none →
      (textProcessLine st line).evento = st.evento
        ∧ ∀ r ∈ (textProcessLine st line).rows,
            r ∈ st.rows ∨ r.evento = st.evento)
    ∧ ((textProcessLine {} "Evento: 1234".toList).evento = some "1234"
        ∧ (textProcessLine {} "Evento: 7".toList).evento = some "007"
        ∧ (csvProcessLine ',' {} "Evento: 1234".toList).evento = some "123")
    ∧ (extractFromCsvReport
        "Evento: 002\n85-1,A,\"10,00\"\n12-3,B,\"20,00\"\nEvento: 015\n99-1,C,\"30,00\"").rows.map
          (fun r => (r.matricula, r.evento))
      = [("85-1", some "002"), ("12-3", some "002"), ("99-1", some "015")] := by
  refine ⟨fun delim st line ds hev => csvProcessLine_evento_set delim st line ds hev,
    fun st line ds hev => textProcessLine_evento_set st line ds hev,
    fun delim st line hev => csvProcessLine_evento_keep delim st line hev,
    fun st line hev => textProcessLine_evento_keep st line hev,
    ⟨by decide, by decide, by decide⟩, ?_⟩
  show ((splitLinesChars
      "Evento: 002\n85-1,A,\"10,00\"\n12-3,B,\"20,00\"\nEvento: 015\n99-1,C,\"30,00\"".toList).foldl
        (csvProcessLine (detectDelimiter (splitLinesChars
          "Evento: 002\n85-1,A,\"10,00\"\n12-3,B,\"20,00\"\nEvento: 015\n99-1,C,\"30,00\"".toList)).delimiter)
        {}).rows.map (fun r => (r.matricula, r.evento)) = _
  rw [miniCsv_delimiter]
  decide

theorem chooseValue_last_non_zero_witness :
    ([(1:ℚ), 2].filter (fun x => decide (0 < x))).getLast? = some 2
    ∧ chooseValueCsv [(1:ℚ), 2] = some 2 ∧ chooseValueText [(1:ℚ), 2] = some 2 := by
  have hfil : ([(1:ℚ), 2].filter (fun x => decide (0 < x))) = [1, 2] := by
    have c1 : (decide ((0:ℚ) < 1)) = true := decide_eq_true (by norm_num)
    have c2 : (decide ((0:ℚ) < 2)) = true := decide_eq_true (by norm_num)
    simp [List.filter_cons, c1, c2]
  have hlast : ([(1:ℚ), 2].filter (fun x => decide (0 < x))).getLast? = some 2 := by
    rw [hfil]
    rfl
  exact ⟨hlast, chooseValue_last_non_zero.2.1 [(1:ℚ), 2] 2 hlast⟩

theorem evento_statefulness_amended_witness :
    (csvProcessLine ',' {} "Evento: 12".toList).evento = some "012"
    ∧ (csvProcessLine ',' {} "Evento: 12".toList).rows = ({} : CsvState).rows := by
  have h := evento_statefulness_amended.1 ',' {} "Evento: 12".toList ['1', '2'] (by decide)
  refine ⟨?_, h.2⟩
  rw [h.1]
  decide

/-! ### Spreadsheet cells and column inference
(`src/core/prefeitura/connectors/sheet/parseSheetValue.ts` and
`detectSheetColumns.ts`) -/

/-- **C10**: `parseCellAsMonetary` returns no value for a CPF-shaped cell,
and every value it does return is at most `50000` (the undocumented
`MAX_REASONABLE_VALUE` cap), so larger amounts are never counted or summed
during column inference. -/
theorem parseCellAsMonetary_cpf_and_cap (cell : Cell) (v : ℚ) :
    (cellLooksCpf cell = true → parseCellAsMonetary cell = none)
    ∧ (parseCellAsMonetary cell = some v → v ≤ 50000) := by
  constructor
  · intro hcpf
    cases cell with
    | null => rfl
    | str s => simp [parseCellAsMonetary, hcpf]
    | num q => simp [cellLooksCpf] at hcpf
  · intro hv
    cases cell with
    | null => simp [parseCellAsMonetary] at hv
    | str s =>
      simp only [parseCellAsMonetary] at hv
      split at hv
      · exact absurd hv (by simp)
      · split at hv
        · split at hv
          · exact absurd hv (by simp)
          · rename_i hcap
            rw [← Option.some.inj hv]
            exact le_of_not_lt hcap
        · exact absurd hv (by simp)
    | num q =>
      simp only [parseCellAsMonetary] at hv
      split at hv
      · exact absurd hv (by simp)
      · split at hv
        · exact absurd hv (by simp)
        · rename_i hcap
          rw [← Option.some.inj hv]
          exact le_of_not_lt hcap

theorem parseCellAsMonetary_cpf_and_cap_witness :
    parseCellAsMonetary (Cell.str "123.456.789-01") = none ∧ (42 : ℚ) ≤ 50000 := by
  constructor
  · exact (parseCellAsMonetary_cpf_and_cap (Cell.str "123.456.789-01") 0).1 (by decide)
  · refine (parseCellAsMonetary_cpf_and_cap (Cell.num 42) 42).2 ?_
    have hcap : ¬ (50000 : ℚ) < 42 := by norm_num
    simp [parseCellAsMonetary, cellLooksCpf, hcap]

/-! ### Column inference selection rules (claim C6) -/

theorem indexOfMaxGo_snd_le {α : Type} [LinearOrder α]
    (l : List α) (mi : ℕ) (mv : α) (i : ℕ) :
    mv ≤ (indexOfMaxGo l mi mv i).2 := by
  induction l generalizing mi mv i with
  | nil => exact le_refl mv
  | cons v rest ih =>
    rw [indexOfMaxGo]
    by_cases hlt : mv < v
    · rw [if_pos hlt]
      exact le_of_lt (lt_of_lt_of_le hlt (ih i v (i + 1)))
    · rw [if_neg hlt]
      exact ih mi mv (i + 1)

theorem indexOfMaxGo_mem_le {α : Type} [LinearOrder α]
    (l : List α) (mi : ℕ) (mv : α) (i : ℕ) :
    ∀ x ∈ l, x ≤ (indexOfMaxGo l mi mv i).2 := by
  induction l generalizing mi mv i with
  | nil => intro x hx; simp at hx
  | cons v rest ih =>
    intro x hx
    rw [indexOfMaxGo]
    rcases List.mem_cons.mp hx with hx2 | hx2
    · subst hx2
      by_cases hlt : mv < x
      · rw [if_pos hlt]
        exact indexOfMaxGo_snd_le rest i x (i + 1)
      · rw [if_neg hlt]
        exact le_trans (le_of_not_lt hlt) (indexOfMaxGo_snd_le rest mi mv (i + 1))
    · by_cases hlt : mv < v
      · rw [if_pos hlt]
        exact ih i v (i + 1) x hx2
      · rw [if_neg hlt]
        exact ih mi mv (i + 1) x hx2

theorem indexOfMaxGo_fst_spec {α : Type} [LinearOrder α]
    (l : List α) (mi : ℕ) (mv : α) (i : ℕ) :
    ((indexOfMaxGo l mi mv i).1 = mi ∧ (indexOfMaxGo l mi mv i).2 = mv)
    ∨ ∃ k, k < l.length ∧ (indexOfMaxGo l mi mv i).1 = i + k
        ∧ l.get? k = some (indexOfMaxGo l mi mv i).2 := by
  induction l generalizing mi mv i with
  | nil => exact Or.inl ⟨rfl, rfl⟩
  | cons v rest ih =>
    rw [indexOfMaxGo]
    by_cases hlt : mv < v
    · rw [if_pos hlt]
      rcases ih i v (i + 1) with ⟨h1, h2⟩ | ⟨k, hk, h1, h2⟩
      · exact Or.inr ⟨0, by simp, by rw [h1]; omega, by simp [h2]⟩
      · exact Or.inr ⟨k + 1, by simp; omega, by rw [h1]; omega, by simpa using h2⟩
    · rw [if_neg hlt]
      rcases ih mi mv (i + 1) with ⟨h1, h2⟩ | ⟨k, hk, h1, h2⟩
      · exact Or.inl ⟨h1, h2⟩
      · exact Or.inr ⟨k + 1, by simp; omega, by rw [h1]; omega, by simpa using h2⟩

/-- `indexOfMax` returns the index of a maximum element. -/
theorem indexOfMax_spec {α : Type} [LinearOrder α] (arr : List α)
    (hne : arr ≠ []) :
    ∃ mv, arr.get? (indexOfMax arr) = some mv ∧ ∀ x ∈ arr, x ≤ mv := by
  match arr with
  | [] => exact absurd rfl hne
  | a :: rest =>
    rw [indexOfMax]
    rcases indexOfMaxGo_fst_spec rest 0 a 1 with ⟨h1, h2⟩ | ⟨k, hk, h1, h2⟩
    · refine ⟨(indexOfMaxGo rest 0 a 1).2, ?_, ?_⟩
      · rw [h1, h2]
        rfl
      · intro x hx
        rcases List.mem_cons.mp hx with hx2 | hx2
        · rw [hx2]
          exact indexOfMaxGo_snd_le rest 0 a 1
        · exact indexOfMaxGo_mem_le rest 0 a 1 x hx2
    · refine ⟨(indexOfMaxGo rest 0 a 1).2, ?_, ?_⟩
      · rw [h1, Nat.add_comm 1 k]
        simpa using h2
      · intro x hx
        rcases List.mem_cons.mp hx with hx2 | hx2
        · rw [hx2]
          exact indexOfMaxGo_snd_le rest 0 a 1
        · exact indexOfMaxGo_mem_le rest 0 a 1 x hx2

theorem candLe_total (a b : ValorCandidate) :
    candLe a b = true ∨ candLe b a = true := by
  unfold candLe
  rcases lt_trichotomy a.sum b.sum with hs | hs | hs
  · right
    exact decide_eq_true (Or.inl hs)
  · rcases le_total b.hits a.hits with hh | hh
    · left
      exact decide_eq_true (Or.inr ⟨hs, hh⟩)
    · right
      exact decide_eq_true (Or.inr ⟨hs.symm, hh⟩)
  · left
    exact decide_eq_true (Or.inl hs)

theorem candLe_trans (a b c : ValorCandidate)
    (hab : candLe a b = true) (hbc : candLe b c = true) :
    candLe a c = true := by
  unfold candLe at *
  rw [decide_eq_true_eq] at *
  rcases hab with h1 | ⟨h1, h1b⟩ <;> rcases hbc with h2 | ⟨h2, h2b⟩
  · exact Or.inl (lt_trans h2 h1)
  · exact Or.inl (h2 ▸ h1)
  · exact Or.inl (h1 ▸ h2)
  · exact Or.inr ⟨h1.trans h2, le_trans h2b h1b⟩

theorem sheetMatriculaCol_spec (rows : List (List Cell))
    (hmc : sheetMaxCols rows ≠ 0) :
    sheetMatriculaCol rows < sheetMaxCols rows
    ∧ (sheetMHits rows).getD (sheetMatriculaCol rows) 0
        = matriculaHitsCol rows (sheetMatriculaCol rows)
    ∧ ∀ c, c < sheetMaxCols rows →
        matriculaHitsCol rows c ≤ matriculaHitsCol rows (sheetMatriculaCol rows) := by
  have hne : sheetMHits rows ≠ [] := by
    unfold sheetMHits
    rw [Ne, List.map_eq_nil, List.range_eq_nil]
    exact hmc
  obtain ⟨mv, hget, hmax⟩ := indexOfMax_spec (sheetMHits rows) hne
  have hidx : sheetMatriculaCol rows = indexOfMax (sheetMHits rows) := rfl
  rw [← hidx] at hget
  have hlt : sheetMatriculaCol rows < sheetMaxCols rows := by
    rcases List.get?_eq_some.mp hget with ⟨hbound, _⟩
    rw [sheetMHits, List.length_map, List.length_range] at hbound
    exact hbound
  have hmv : mv = matriculaHitsCol rows (sheetMatriculaCol rows) := by
    rw [sheetMHits, List.get?_map, List.get?_range hlt] at hget
    simpa using hget.symm
  refine ⟨hlt, ?_, ?_⟩
  · rw [List.getD_eq_get?, hget, hmv]
    rfl
  · intro c hc
    have hmem : matriculaHitsCol rows c ∈ sheetMHits rows := by
      rw [sheetMHits]
      exact List.mem_map_of_mem _ (List.mem_range.mpr hc)
    rw [← hmv]
    exact hmax _ hmem

theorem mem_sheetValorCandidates (rows : List (List Cell)) (x : ValorCandidate) :
    x ∈ sheetValorCandidates rows ↔
      x.col < sheetMaxCols rows ∧ x.col ≠ sheetMatriculaCol rows
      ∧ 0 < valorHitsCol rows x.col
      ∧ x.hits = (valorHitsCol rows x.col : ℤ)
      ∧ x.sum = valorSumsCol rows x.col := by
  rw [sheetValorCandidates, List.mem_filterMap]
  constructor
  · rintro ⟨c, hc, hfc⟩
    rw [List.mem_range] at hc
    by_cases hm : c = sheetMatriculaCol rows
    · rw [if_neg] at hfc
      · exact absurd hfc (by simp)
      · rw [sheetVHits, if_pos hm]
        decide
    · have hpos : 0 < sheetVHits rows c := by
        by_contra hneg
        rw [if_neg hneg] at hfc
        exact absurd hfc (by simp)
      rw [if_pos hpos] at hfc
      have hx := Option.some.inj hfc
      rw [sheetVHits, if_neg hm] at hpos
      rw [← hx]
      refine ⟨hc, hm, by exact_mod_cast hpos, ?_, ?_⟩
      · rw [sheetVHits, if_neg hm]
      · rw [sheetVSums, if_neg hm]
  · rintro ⟨hc, hm, hpos, hh, hs⟩
    refine ⟨x.col, List.mem_range.mpr hc, ?_⟩
    have hvh : sheetVHits rows x.col = (valorHitsCol rows x.col : ℤ) := by
      rw [sheetVHits, if_neg hm]
    have hvs : sheetVSums rows x.col = valorSumsCol rows x.col := by
      rw [sheetVSums, if_neg hm]
    rw [if_pos (by rw [hvh]; exact_mod_cast hpos)]
    congr 1
    cases x with
    | mk c0 h0 s0 =>
      simp only at hh hs ⊢
      rw [hvh, hvs, hh, hs]

theorem sheetBest_spec (rows : List (List Cell))
    (hcand : sheetValorCandidates rows ≠ []) :
    sheetBest rows ∈ sheetValorCandidates rows
    ∧ ∀ x ∈ sheetValorCandidates rows, candLe (sheetBest rows) x = true := by
  have hperm := sortBy_perm candLe (sheetValorCandidates rows)
  have hsne : sortBy candLe (sheetValorCandidates rows) ≠ [] := by
    intro hc
    exact hcand (List.Perm.eq_nil (hc ▸ hperm).symm)
  have hpw := sortBy_pairwise candLe candLe_total candLe_trans
    (sheetValorCandidates rows)
  match hs : sortBy candLe (sheetValorCandidates rows) with
  | [] => exact absurd hs hsne
  | b :: tail =>
    have hbest : sheetBest rows = b := by
      rw [sheetBest, hs]
      rfl
    rw [hs] at hperm hpw
    constructor
    · rw [hbest]
      exact hperm.mem_iff.mp (List.mem_cons_self b tail)
    · intro x hx
      have hx2 : x ∈ b :: tail := hperm.mem_iff.mpr hx
      rcases List.mem_cons.mp hx2 with hx3 | hx3
      · rw [hbest, hx3]
        rcases candLe_total b b with h | h <;> exact h
      · rw [hbest]
        exact (List.pairwise_cons.mp hpw).1 x hx3

/-- Failure of the inference when no column shows the key pattern. -/
theorem detectSheetColumns_no_key (rows : List (List Cell))
    (hzero : ∀ c, matriculaHitsCol rows c = 0) :
    detectSheetColumns rows = none := by
  rw [detectSheetColumns]
  by_cases h0 : rows.length = 0
  · rw [if_pos h0]
  · rw [if_neg h0]
    by_cases h1 : sheetMaxCols rows = 0
    · rw [if_pos h1]
    · rw [if_neg h1]
      have hg : (sheetMHits rows).getD (sheetMatriculaCol rows) 0 = 0 := by
        rw [List.getD_eq_get?]
        cases hq : (sheetMHits rows).get? (sheetMatriculaCol rows) with
        | none => rfl
        | some mv =>
          rcases List.get?_eq_some.mp hq with ⟨hbound, hval⟩
          have : mv ∈ sheetMHits rows := List.get?_mem hq
          rw [sheetMHits] at this
          rcases List.mem_map.mp this with ⟨c, _, hcv⟩
          rw [← hcv, hzero c]
          rfl
      rw [if_pos hg]

/-- **C6** (column inference): the employee-key column maximizes the
key-pattern hit count and inference fails when every column has zero hits;
the amount column is the non-key candidate with the greatest summed value —
not the greatest hit count — so a column of real figures beats a column of
zero-valued placeholders (concrete grid: column 2 with one hit summing 300
wins over column 1 with two zero-valued hits). -/
theorem detectSheetColumns_selection :
    (∀ (rows : List (List Cell)) (r : ColumnDetectionResult),
      detectSheetColumns rows = some r →
        0 < matriculaHitsCol rows r.matriculaCol
        ∧ (∀ c, c < sheetMaxCols rows →
            matriculaHitsCol rows c ≤ matriculaHitsCol rows r.matriculaCol)
        ∧ r.valorCol ≠ r.matriculaCol
        ∧ 0 < valorHitsCol rows r.valorCol
        ∧ (∀ c, c < sheetMaxCols rows → c ≠ r.matriculaCol →
            0 < valorHitsCol rows c →
            valorSumsCol rows c ≤ valorSumsCol rows r.valorCol))
    ∧ (∀ rows : List (List Cell),
        (∀ c, matriculaHitsCol rows c = 0) → detectSheetColumns rows = none)
    ∧ detectSheetColumns
        [[Cell.str "100-1", Cell.num 0, Cell.num 300],
         [Cell.str "200-2", Cell.num 0, Cell.null]]
      = some { matriculaCol := 0, valorCol := 2, eventoCol := some 1,
               confidence := .medium }
    ∧ valorHitsCol [[Cell.str "100-1", Cell.num 0, Cell.num 300],
         [Cell.str "200-2", Cell.num 0, Cell.null]] 2
      < valorHitsCol [[Cell.str "100-1", Cell.num 0, Cell.num 300],
         [Cell.str "200-2", Cell.num 0, Cell.null]] 1 := by
  refine ⟨?_, detectSheetColumns_no_key, ?_, ?_⟩
  · intro rows r h
    rw [detectSheetColumns] at h
    by_cases h0 : rows.length = 0
    · rw [if_pos h0] at h
      exact absurd h (by simp)
    rw [if_neg h0] at h
    by_cases h1 : sheetMaxCols rows = 0
    · rw [if_pos h1] at h
      exact absurd h (by simp)
    rw [if_neg h1] at h
    by_cases h2 : (sheetMHits rows).getD (sheetMatriculaCol rows) 0 = 0
    · rw [if_pos h2] at h
      exact absurd h (by simp)
    rw [if_neg h2] at h
    by_cases h3 : sheetValorCandidates rows = []
    · rw [if_pos h3] at h
      exact absurd h (by simp)
    rw [if_neg h3] at h
    have hr := (Option.some.inj h).symm
    obtain ⟨hlt, hgetd, hmax⟩ := sheetMatriculaCol_spec rows h1
    obtain ⟨hbmem, hbmax⟩ := sheetBest_spec rows h3
    rw [mem_sheetValorCandidates] at hbmem
    obtain ⟨hbc, hbne, hbpos, hbhits, hbsum⟩ := hbmem
    have hrm : r.matriculaCol = sheetMatriculaCol rows := by rw [hr]
    have hrv : r.valorCol = (sheetBest rows).col := by rw [hr]
    refine ⟨?_, ?_, ?_, ?_, ?_⟩
    · rw [hrm]
      rw [hgetd] at h2
      omega
    · intro c hc
      rw [hrm]
      exact hmax c hc
    · rw [hrv, hrm]
      exact hbne
    · rw [hrv]
      exact hbpos
    · intro c hc hcm hcpos
      have hxmem : (⟨c, (valorHitsCol rows c : ℤ), valorSumsCol rows c⟩
          : ValorCandidate) ∈ sheetValorCandidates rows := by
        rw [mem_sheetValorCandidates]
        exact ⟨hc, hrm ▸ hcm, hcpos, rfl, rfl⟩
      have hle := hbmax _ hxmem
      rw [candLe, decide_eq_true_eq] at hle
      rw [hrv, ← hbsum]
      rcases hle with hlt2 | ⟨heq, _⟩
      · exact le_of_lt hlt2
      · exact le_of_eq heq.symm
  · show detectSheetColumns c6grid
        = some { matriculaCol := 0, valorCol := 2, eventoCol := some 1,
                 confidence := .medium }
    have hmc : sheetMatriculaCol c6grid = 0 := by decide
    have hs1 : valorSumsCol c6grid 1 = 0 := by
      show ([(0 : ℚ), 0]).sum = 0
      norm_num [List.sum_cons, List.sum_nil]
    have hs2 : valorSumsCol c6grid 2 = 300 := by
      show ([(300 : ℚ), 0]).sum = 300
      norm_num [List.sum_cons, List.sum_nil]
    have hcands : sheetValorCandidates c6grid
        = [⟨1, 2, valorSumsCol c6grid 1⟩, ⟨2, 1, valorSumsCol c6grid 2⟩] := rfl
    have hle : candLe ⟨1, 2, valorSumsCol c6grid 1⟩
        ⟨2, 1, valorSumsCol c6grid 2⟩ = false := by
      simp only [candLe, hs1, hs2]
      rw [decide_eq_false_iff_not]
      norm_num
    have hbest : sheetBest c6grid = ⟨2, 1, valorSumsCol c6grid 2⟩ := by
      rw [sheetBest, hcands]
      show (insertLe candLe ⟨2, 1, valorSumsCol c6grid 2⟩
          [⟨1, 2, valorSumsCol c6grid 1⟩]).headD ⟨0, -1, -1⟩ = _
      simp only [insertLe, hle]
      rfl
    have hbcol : (sheetBest c6grid).col = 2 := by rw [hbest]
    have hbhits2 : (sheetBest c6grid).hits = 1 := by rw [hbest]
    have heArr : sheetEArr c6grid = [-1, 2, -1] := by
      rw [sheetEArr,
        show List.range (sheetMaxCols c6grid) = [0, 1, 2] from by decide]
      simp [sheetEHits, hbcol, hmc,
        show eventoHitsCol c6grid 1 = 2 from by decide]
    have hC : sheetValorCandidates c6grid ≠ [] := by
      rw [hcands]
      simp
    rw [detectSheetColumns, if_neg (by decide : ¬ (c6grid.length = 0)),
      if_neg (by decide : ¬ (sheetMaxCols c6grid = 0)),
      if_neg (by decide :
        ¬ ((sheetMHits c6grid).getD (sheetMatriculaCol c6grid) 0 = 0)),
      if_neg hC]
    refine congrArg some ?_
    rw [ColumnDetectionResult.mk.injEq]
    refine ⟨hmc, hbcol, ?_, ?_⟩
    · rw [heArr, show indexOfMax ([-1, 2, -1] : List ℤ) = 1 from by decide]
      rw [if_pos (by decide : (0 : ℤ) < ([-1, 2, -1] : List ℤ).getD 1 0)]
    · rw [show (sheetMHits c6grid).getD (sheetMatriculaCol c6grid) 0 = 2
          from by decide,
        hbhits2, show c6grid.length = 2 from rfl]
      norm_num
  · show valorHitsCol c6grid 2 < valorHitsCol c6grid 1
    decide

theorem detectSheetColumns_selection_witness :
    0 < matriculaHitsCol c6grid 0 ∧ detectSheetColumns [] = none := by
  constructor
  · exact (detectSheetColumns_selection.1 c6grid
      { matriculaCol := 0, valorCol := 2, eventoCol := some 1,
        confidence := .medium }
      detectSheetColumns_selection.2.2.1).1
  · exact detectSheetColumns_selection.2.1 [] (fun c => rfl)

/-- **C7**: for every file whose extension is not a supported format, both
router variants return — through the ordinary fall-through branch, with no
failure path — a well-formed result with zero rows, extraction quality
`falhou`, format `unknown`, and exactly one error diagnostic whose message
names the unsupported extension (or `(sem extensão)` for none) and whose
details list the supported formats. -/
theorem prefeituraExtract_unsupported :
    (∀ (fileName csvText : String)
      (pdfResult docxResult : PrefeituraExtractionResult),
      getExtension fileName ∉ (["csv", "pdf", "docx"] : List String) →
      prefeituraExtract fileName csvText pdfResult docxResult
        = { rows := []
            diagnostics :=
              [{ severity := .error
                 code := "prefeitura_unsupported_format"
                 message := "Formato de arquivo não suportado: ."
                   ++ (if getExtension fileName = "" then "(sem extensão)"
                       else getExtension fileName)
                 details := .unsupportedFormat fileName (getExtension fileName)
                   ["csv", "pdf", "docx"] }]
            competencia := none
            formato := .unknown
            extracao := some .falhou })
    ∧ (∀ (fileName csvText : String)
      (pdfResult docxResult xlsxResult xlsResult : PrefeituraExtractionResult),
      getExtension fileName
          ∉ (["csv", "pdf", "docx", "xlsx", "xls"] : List String) →
      prefeituraExtractV2 fileName csvText pdfResult docxResult
          xlsxResult xlsResult
        = { rows := []
            diagnostics :=
              [{ severity := .error
                 code := "prefeitura_unsupported_format"
                 message := "Formato de arquivo não suportado: ."
                   ++ (if getExtension fileName = "" then "(sem extensão)"
                       else getExtension fileName)
                 details := .unsupportedFormat fileName (getExtension fileName)
                   ["csv", "pdf", "docx", "xlsx", "xls"] }]
            competencia := none
            formato := .unknown
            extracao := some .falhou }) := by
  constructor
  · intro fileName csvText pdfResult docxResult hext
    have h1 : ¬ (getExtension fileName = "csv") := fun hc =>
      hext (by rw [hc]; decide)
    have h2 : ¬ (getExtension fileName = "pdf") := fun hc =>
      hext (by rw [hc]; decide)
    have h3 : ¬ (getExtension fileName = "docx") := fun hc =>
      hext (by rw [hc]; decide)
    simp only [prefeituraExtract]
    rw [if_neg h1, if_neg h2, if_neg h3]
  · intro fileName csvText pdfResult docxResult xlsxResult xlsResult hext
    have h1 : ¬ (getExtension fileName = "csv") := fun hc =>
      hext (by rw [hc]; decide)
    have h2 : ¬ (getExtension fileName = "pdf") := fun hc =>
      hext (by rw [hc]; decide)
    have h3 : ¬ (getExtension fileName = "docx") := fun hc =>
      hext (by rw [hc]; decide)
    have h4 : ¬ (getExtension fileName = "xlsx") := fun hc =>
      hext (by rw [hc]; decide)
    have h5 : ¬ (getExtension fileName = "xls") := fun hc =>
      hext (by rw [hc]; decide)
    simp only [prefeituraExtractV2]
    rw [if_neg h1, if_neg h2, if_neg h3, if_neg h4, if_neg h5]

theorem prefeituraExtract_unsupported_witness :
    (prefeituraExtract "planilha.xlsx" "" emptyPrefResult
        emptyPrefResult).extracao = some .falhou
    ∧ (prefeituraExtractV2 "dados.zip" "" emptyPrefResult emptyPrefResult
        emptyPrefResult emptyPrefResult).diagnostics.length = 1 := by
  constructor
  · rw [prefeituraExtract_unsupported.1 "planilha.xlsx" "" emptyPrefResult
      emptyPrefResult (by decide)]
  · rw [prefeituraExtract_unsupported.2 "dados.zip" "" emptyPrefResult
      emptyPrefResult emptyPrefResult emptyPrefResult (by decide)]
    rfl

end Comparador
